import Mathlib

set_option maxRecDepth 10000

/-!
# A shallow embedding of the `gotimer` hierarchical call-region profiler

This file embeds the Go package `timer` (the version of the source that
defines `StartThroughput`, `Stop`, `Output`, `Reset`, the `TIMER`
environment-variable gate, and `maxHandledAnchors`) as pure Lean functions
over an explicit state.

Modelling conventions:
* Go package-level variables become the fields of `ProfState`.
* Go pointers to `anchor` / `timing` heap objects become indices into two
  heaps, modelled as total functions `Nat → Anchor` / `Nat → Timing`
  together with allocation counters.  A `nil` pointer is `Option.none`.
* `int64` values become `Int`.  The clock readings (`readCPUTimer`) and the
  result of the one-time calibration (`getCPUTimerFreq`) are external
  collaborators, so they enter each operation as explicit arguments.
* `float64` values become `GoFloat`: either an exact rational or one of the
  IEEE special values `+Inf`, `-Inf`, `NaN` that Go float division by zero
  produces.  Rounding of finite values is not modelled; the division-by-zero
  behaviour is.
* Go runtime panics (out-of-range slice store, nil-pointer dereference)
  become an `Option GoPanic` result, returned together with the state that
  the package-level variables hold at the moment of the panic (Go panics do
  not roll back global mutations).
* The `TIMER` environment variable is the `envTimer` field, read by each
  operation as in the source.
-/

namespace GoTimer

/-- A Go `float64` value: an exact finite value, or one of the special
values produced by division by zero.  Rounding of finite values is not
modelled. -/
inductive GoFloat where
  | finite (q : ℚ)
  | posInf
  | negInf
  | nan
deriving DecidableEq

/-- Go `float64(a) / float64(b)` for `int64` inputs: exact when `b ≠ 0`,
otherwise the IEEE result (`+Inf`, `-Inf`, or `NaN` for `0/0`;
`float64` of an integer `0` is `+0`). -/
def goDivInt (a b : Int) : GoFloat :=
  if b ≠ 0 then GoFloat.finite ((a : ℚ) / (b : ℚ))
  else if 0 < a then GoFloat.posInf
  else if a < 0 then GoFloat.negInf
  else GoFloat.nan

/-- Go `float64` division on already-computed float values (used by the
throughput clause of `Output`). -/
def goDivF : GoFloat → GoFloat → GoFloat
  | GoFloat.nan, _ => GoFloat.nan
  | _, GoFloat.nan => GoFloat.nan
  | GoFloat.finite a, GoFloat.finite b =>
      if b ≠ 0 then GoFloat.finite (a / b)
      else if 0 < a then GoFloat.posInf
      else if a < 0 then GoFloat.negInf
      else GoFloat.nan
  | GoFloat.finite _, GoFloat.posInf => GoFloat.finite 0
  | GoFloat.finite _, GoFloat.negInf => GoFloat.finite 0
  | GoFloat.posInf, GoFloat.finite b => if 0 ≤ b then GoFloat.posInf else GoFloat.negInf
  | GoFloat.negInf, GoFloat.finite b => if 0 ≤ b then GoFloat.negInf else GoFloat.posInf
  | GoFloat.posInf, GoFloat.posInf => GoFloat.nan
  | GoFloat.posInf, GoFloat.negInf => GoFloat.nan
  | GoFloat.negInf, GoFloat.posInf => GoFloat.nan
  | GoFloat.negInf, GoFloat.negInf => GoFloat.nan

/-- `const TOTAL_ANCHOR_NAME = "total"` -/
def TOTAL_ANCHOR_NAME : String := "total"

/-- `const anchorNameMaxLength = 18` -/
def anchorNameMaxLength : Nat := 18

/-- `const maxHandledAnchors = 1000` -/
def maxHandledAnchors : Nat := 1000

/-- The `timing` struct.  `previous` and `anchor` are heap references
(`none` = Go `nil`). -/
structure Timing where
  start : Int
  previous : Option Nat
  anchor : Option Nat
deriving DecidableEq

/-- The Go zero value of `timing` (what `&timing{}` allocates). -/
def Timing.zero : Timing := { start := 0, previous := none, anchor := none }

instance : Inhabited Timing := ⟨Timing.zero⟩

/-- The `anchor` struct.  `parent` is an anchor-heap reference and `latest`
a timing-heap reference (`none` = Go `nil`). -/
structure Anchor where
  hits : Int
  depth : Int
  tscount : Int
  bytes : Int
  elapsed : GoFloat
  name : String
  active : Bool
  parent : Option Nat
  latest : Option Nat
deriving DecidableEq

/-- The Go zero value of `anchor`. -/
def Anchor.zero : Anchor :=
  { hits := 0, depth := 0, tscount := 0, bytes := 0, elapsed := GoFloat.finite 0,
    name := "", active := false, parent := none, latest := none }

instance : Inhabited Anchor := ⟨Anchor.zero⟩

/-- Pointwise update of a heap function at one index. -/
def upd {α : Type} (h : Nat → α) (i : Nat) (v : α) : Nat → α :=
  fun j => if j = i then v else h j

/-- The package-level mutable state of the `timer` package.  The two heaps
model the Go garbage-collected heap for `anchor` and `timing` objects;
`anchorCount` / `timingCount` are allocation counters (every live reference
produced by the code is below the counter). -/
structure ProfState where
  envTimer : String
  cpuFrequency : Int
  index : Nat
  anchors : List (Option Nat)
  anchorsByName : List (String × Nat)
  currentAnchor : Option Nat
  currentTiming : Option Nat
  totalAnchorId : Nat
  totalTimingId : Nat
  anchorHeap : Nat → Anchor
  anchorCount : Nat
  timingHeap : Nat → Timing
  timingCount : Nat

/-- Update one anchor-heap cell through a field-modifying function
(a Go assignment `a.field = ...` through a pointer). -/
def setAnchorF (s : ProfState) (i : Nat) (f : Anchor → Anchor) : ProfState :=
  { s with anchorHeap := upd s.anchorHeap i (f (s.anchorHeap i)) }

/-- Update one timing-heap cell through a field-modifying function. -/
def setTimingF (s : ProfState) (i : Nat) (f : Timing → Timing) : ProfState :=
  { s with timingHeap := upd s.timingHeap i (f (s.timingHeap i)) }

/-- The state established by Go package initialization: empty table and map,
`index = 0`, `totalTiming = &timing{}` (timing-heap cell 0),
`totalAnchor = &anchor{name: TOTAL_ANCHOR_NAME}` (anchor-heap cell 0),
`currentAnchor = currentTiming = nil`, `cpuFrequency = 0`.  The `TIMER`
environment variable's value is a parameter. -/
def initialState (env : String) : ProfState :=
  { envTimer := env
    cpuFrequency := 0
    index := 0
    anchors := List.replicate maxHandledAnchors none
    anchorsByName := []
    currentAnchor := none
    currentTiming := none
    totalAnchorId := 0
    totalTimingId := 0
    anchorHeap := upd (fun _ => Anchor.zero) 0 { Anchor.zero with name := TOTAL_ANCHOR_NAME }
    anchorCount := 1
    timingHeap := upd (fun _ => Timing.zero) 0 Timing.zero
    timingCount := 1 }

/-- `Reset()`: clears the table, map and index, allocates a fresh
`totalTiming` and `totalAnchor` (the Go code assigns new objects; the old
cells become garbage), and clears `currentAnchor` / `currentTiming`.
`cpuFrequency` (the calibration) is not touched. -/
def resetState (s : ProfState) : ProfState :=
  { s with
    index := 0
    anchors := List.replicate maxHandledAnchors none
    anchorsByName := []
    totalTimingId := s.timingCount
    timingHeap := upd s.timingHeap s.timingCount Timing.zero
    timingCount := s.timingCount + 1
    currentAnchor := none
    currentTiming := none
    totalAnchorId := s.anchorCount
    anchorHeap := upd s.anchorHeap s.anchorCount { Anchor.zero with name := TOTAL_ANCHOR_NAME }
    anchorCount := s.anchorCount + 1 }

/-- Name truncation on ingestion:
`if len(name) > anchorNameMaxLength { name = name[:anchorNameMaxLength] }`. -/
def truncateName (s : String) : String :=
  if s.length > anchorNameMaxLength then s.take anchorNameMaxLength else s

/-- Lookup in the name map.  The Go map is keyed by string; since keys are
only ever inserted when absent, an insertion-ordered association list with
first-match lookup is an exact model. -/
def lookupName (m : List (String × Nat)) (k : String) : Option Nat :=
  match m with
  | [] => none
  | (k', v) :: rest => if k' = k then some v else lookupName rest k

/-- A Go runtime panic that the package can raise. -/
inductive GoPanic where
  | indexOutOfRange
  | nilDereference
deriving DecidableEq

/-- `if cpuFrequency == 0 { cpuFrequency = getCPUTimerFreq(50) }` — the
calibration routine is an external collaborator; its result is the
argument `c`. -/
def calibrate (s : ProfState) (c : Int) : ProfState :=
  if s.cpuFrequency = 0 then { s with cpuFrequency := c } else s

/-- The `if !exists` block of `StartThroughput`: allocate the anchor with
`active: true`, insert it into the map, increment `index`, store it at
`anchors[index]` (a Go out-of-range panic when `index` reaches the slice
length — note the map insertion and the increment have already happened),
then assign `depth` and `parent` from `currentAnchor`.  The new anchor's
heap id is the caller's `s.anchorCount`. -/
def createAnchor (s : ProfState) (anchorName : String) : ProfState × Option GoPanic :=
  let aid := s.anchorCount
  let s1 := { s with
    anchorHeap := upd s.anchorHeap aid { Anchor.zero with name := anchorName, active := true }
    anchorCount := s.anchorCount + 1
    anchorsByName := s.anchorsByName ++ [(anchorName, aid)]
    index := s.index + 1 }
  if s1.index < s1.anchors.length then
    let s2 := { s1 with anchors := s1.anchors.set s1.index (some aid) }
    let s3 :=
      match s2.currentAnchor with
      | some cid => setAnchorF s2 aid (fun a => { a with depth := (s2.anchorHeap cid).depth + 1 })
      | none => s2
    (setAnchorF s3 aid (fun a => { a with parent := s3.currentAnchor }), none)
  else
    (s1, some GoPanic.indexOutOfRange)

/-- Sequencing of statement blocks that can panic: a panic aborts the
function, keeping the state the package-level variables hold at that
moment. -/
def pseq (r : ProfState × Option GoPanic) (f : ProfState → ProfState × Option GoPanic) :
    ProfState × Option GoPanic :=
  match r with
  | (s, none) => f s
  | (s, some p) => (s, some p)

/-- `StartThroughput`'s block
`if totalTiming.start == 0 { totalTiming.start = current; totalTiming.anchor = totalAnchor; totalAnchor.latest = totalTiming }`
marking the session start on the first `Begin`. -/
def armTotal (s : ProfState) (current : Int) : ProfState :=
  if (s.timingHeap s.totalTimingId).start = 0 then
    let sa := setTimingF s s.totalTimingId
      (fun t => { t with start := current, anchor := some s.totalAnchorId })
    setAnchorF sa sa.totalAnchorId (fun a => { a with latest := some sa.totalTimingId })
  else s

/-- `StartThroughput`'s block
`if currentTiming != nil { currentTiming.anchor.active = false; currentTiming.anchor.tscount += current - currentTiming.start }`
charging the interrupted frame's anchor for the elapsed slice (a nil
`currentTiming.anchor` would be a Go nil dereference). -/
def chargeInterrupted (s : ProfState) (current : Int) : ProfState × Option GoPanic :=
  match s.currentTiming with
  | some ct =>
    match (s.timingHeap ct).anchor with
    | some ca =>
      (setAnchorF s ca
        (fun a => { a with active := false,
                           tscount := a.tscount + current - (s.timingHeap ct).start }), none)
    | none => (s, some GoPanic.nilDereference)
  | none => (s, none)

/-- The first half of `StartThroughput`'s tail: bump `hits` and `bytes`,
set `currentAnchor`, allocate the new timing frame (heap id
`s.timingCount`) with `previous = currentTiming` and `startCycle` the
clock reading, and store it as the anchor's `latest`. -/
def startFrame (s : ProfState) (aid : Nat) (processedBytes : Int) (current : Int) :
    ProfState :=
  let s1 := setAnchorF s aid
    (fun a => { a with hits := a.hits + 1, bytes := a.bytes + processedBytes })
  let s2 := { s1 with currentAnchor := some aid }
  let tid := s2.timingCount
  let s3 := { s2 with
    timingHeap := upd s2.timingHeap tid
      { start := current, previous := s2.currentTiming, anchor := some aid }
    timingCount := s2.timingCount + 1 }
  setAnchorF s3 aid (fun a => { a with latest := some tid })

/-- The tail of `StartThroughput`, from `startingAnchor.hits = ...` on:
allocate and store the frame (`startFrame`), arm `totalTiming` on the
first begin, charge the interrupted frame's anchor, and finally set
`currentTiming` to the new frame (whose heap id is the caller's
`s.timingCount`). -/
def startCont (s : ProfState) (aid : Nat) (processedBytes : Int) (current : Int) :
    ProfState × Option GoPanic :=
  let s5 := armTotal (startFrame s aid processedBytes current) current
  pseq (chargeInterrupted s5 current)
    (fun s6 => ({ s6 with currentTiming := some s.timingCount }, none))

/-- `StartThroughput(anchorName, processedBytes)`.  `calibFreq` is the
external calibration result consumed only when `cpuFrequency == 0`;
`current` is the `readCPUTimer()` reading. -/
def startThroughput (s0 : ProfState) (anchorName0 : String) (processedBytes : Int)
    (calibFreq : Int) (current : Int) : ProfState × Option GoPanic :=
  if s0.envTimer = "0" then (s0, none)
  else
    let s1 := calibrate s0 calibFreq
    let anchorName := truncateName anchorName0
    match lookupName s1.anchorsByName anchorName with
    | some aid => startCont s1 aid processedBytes current
    | none =>
      match createAnchor s1 anchorName with
      | (s2, none) => startCont s2 s1.anchorCount processedBytes current
      | (s2, some p) => (s2, some p)

/-- `Start(anchorName)` is `StartThroughput(anchorName, 0)`. -/
def start (s : ProfState) (anchorName : String) (calibFreq : Int) (current : Int) :
    ProfState × Option GoPanic :=
  startThroughput s anchorName 0 calibFreq current

/-- `Stop`'s first block:
`if previousTiming != nil { previousTiming.start = end; previousTiming.anchor.active = true }`
(a nil `previousTiming.anchor` would be a Go nil dereference). -/
def stopResumePrev (s : ProfState) (previousTiming : Option Nat) (endv : Int) :
    ProfState × Option GoPanic :=
  match previousTiming with
  | some pt =>
    let s1 := setTimingF s pt (fun t => { t with start := endv })
    match (s1.timingHeap pt).anchor with
    | some pa => (setAnchorF s1 pa (fun a => { a with active := true }), none)
    | none => (s1, some GoPanic.nilDereference)
  | none => (s, none)

/-- `Stop`'s second block:
`if anchor.parent != nil { anchor.parent.latest.start = end; anchor.parent.active = true }`
(a nil `anchor.parent.latest` would be a Go nil dereference). -/
def stopResumeParent (s : ProfState) (aid : Nat) (endv : Int) : ProfState × Option GoPanic :=
  match (s.anchorHeap aid).parent with
  | some pid =>
    match (s.anchorHeap pid).latest with
    | some pl =>
      let s2 := setTimingF s pl (fun t => { t with start := endv })
      (setAnchorF s2 pid (fun a => { a with active := true }), none)
    | none => (s, some GoPanic.nilDereference)
  | none => (s, none)

/-- `Stop`'s tail: reassign `currentAnchor` / `currentTiming`, accumulate
`anchor.tscount` from `anchor.latest.start` (note: `latest`, not the frame
being closed when they differ), recompute `elapsed`, and recompute the
total anchor's span from `totalTiming.start`.  Heap reads happen at the
program point where the source performs them. -/
def stopFinish (s2 : ProfState) (aid lt : Nat) (previousTiming : Option Nat) (endv : Int) :
    ProfState :=
  let s3 := { s2 with
    currentAnchor := (s2.anchorHeap aid).parent
    currentTiming := previousTiming }
  let s4 := setAnchorF s3 aid
    (fun a => { a with tscount := a.tscount + endv - (s3.timingHeap lt).start })
  let s5 := setAnchorF s4 aid
    (fun a => { a with elapsed := goDivInt a.tscount (Int.tdiv s4.cpuFrequency 1000) })
  let s6 := setAnchorF s5 s5.totalAnchorId
    (fun a => { a with tscount := endv - (s5.timingHeap s5.totalTimingId).start })
  setAnchorF s6 s6.totalAnchorId
    (fun a => { a with elapsed := goDivInt a.tscount (Int.tdiv s6.cpuFrequency 1000) })

/-- `Stop(anchorName)`.  `endv` is the `readCPUTimer()` reading taken on
entry.  A missing map entry gives a nil `anchor` pointer, so
`anchor.latest` panics; a nil `latest` likewise panics on `.previous`.
Mutation order follows the source exactly. -/
def stop (s0 : ProfState) (anchorName0 : String) (endv : Int) : ProfState × Option GoPanic :=
  if s0.envTimer = "0" then (s0, none)
  else
    let anchorName := truncateName anchorName0
    match lookupName s0.anchorsByName anchorName with
    | none => (s0, some GoPanic.nilDereference)
    | some aid =>
      match (s0.anchorHeap aid).latest with
      | none => (s0, some GoPanic.nilDereference)
      | some lt =>
        let previousTiming := (s0.timingHeap lt).previous
        pseq (stopResumePrev s0 previousTiming endv) (fun s1 =>
          pseq (stopResumeParent s1 aid endv) (fun s2 =>
            (stopFinish s2 aid lt previousTiming endv, none)))

/-- One line of `Output`'s text, kept structurally: the printed characters
are a deterministic rendering of these fields (`fmt.Printf` with fixed
verbs), so structural equality of lines is character-for-character equality
of the printed text. -/
inductive OutLine where
  | blank
  | header (pad : Int) (name : String) (elapsed : GoFloat) (freq : Int)
  | entry (pad : Int) (name : String) (elapsed : GoFloat) (percent : GoFloat) (hits : Int)
  | entryThroughput (pad : Int) (name : String) (elapsed : GoFloat) (percent : GoFloat)
      (hits : Int) (megabytes : GoFloat) (gbPerSec : GoFloat)
deriving DecidableEq

/-- The body of `Output`'s loop for one non-nil slot: percent is
`100 * float64(anchor.tscount) / float64(totalAnchor.tscount)`, padding is
`anchorNameMaxLength + 2*anchor.depth`, and the throughput clause is
emitted only when `anchor.bytes != 0`. -/
def entryLine (s : ProfState) (aid : Nat) : OutLine :=
  let a := s.anchorHeap aid
  let percent := goDivInt (100 * a.tscount) ((s.anchorHeap s.totalAnchorId).tscount)
  let pad : Int := (anchorNameMaxLength : Int) + 2 * a.depth
  if a.bytes = 0 then
    OutLine.entry pad a.name a.elapsed percent a.hits
  else
    let megabytes := goDivInt a.bytes (1024 * 1024)
    let gigabytes := goDivInt a.bytes (1024 * 1024 * 1024)
    let throughput := goDivF gigabytes (goDivInt a.tscount s.cpuFrequency)
    OutLine.entryThroughput pad a.name a.elapsed percent a.hits megabytes throughput

/-- `Output`'s `for index, anchor := range anchors` body after the skipped
slot 0: emit one line per slot, stopping (`break`) at the first nil slot. -/
def outputLoop (s : ProfState) : List (Option Nat) → List OutLine
  | [] => []
  | none :: _ => []
  | some aid :: rest => entryLine s aid :: outputLoop s rest

/-- The loop of `Output` over the whole `anchors` slice: slot 0 is skipped
by the `index == 0` `continue`. -/
def outputEntries (s : ProfState) : List OutLine :=
  match s.anchors with
  | [] => []
  | _ :: rest => outputLoop s rest

/-- `Output()`: disabled-mode gate, then a blank line, the total header, and
the per-anchor loop.  It reads the state and returns it unchanged. -/
def output (s : ProfState) : ProfState × List OutLine :=
  if s.envTimer = "0" then (s, [])
  else
    let total := s.anchorHeap s.totalAnchorId
    (s, OutLine.blank ::
        OutLine.header (anchorNameMaxLength : Int) total.name total.elapsed s.cpuFrequency ::
        outputEntries s)

/-- One API call, with the external inputs (clock reading, calibration
result) it consumes. -/
inductive Op where
  | start (name : String) (bytes : Int) (calibFreq : Int) (now : Int)
  | stop (name : String) (now : Int)
  | output
  | reset
deriving DecidableEq

/-- Execute one call. -/
def stepOp (s : ProfState) : Op → ProfState × List OutLine × Option GoPanic
  | Op.start n b c now =>
    let r := startThroughput s n b c now
    (r.1, [], r.2)
  | Op.stop n now =>
    let r := stop s n now
    (r.1, [], r.2)
  | Op.output =>
    let r := output s
    (r.1, r.2, none)
  | Op.reset => (resetState s, [], none)

/-- Execute a call sequence, halting at the first panic (a Go panic unwinds
out of the program). -/
def run (s : ProfState) : List Op → ProfState × List OutLine × Option GoPanic
  | [] => (s, [], none)
  | op :: ops =>
    match stepOp s op with
    | (s1, o, none) =>
      let r := run s1 ops
      (r.1, o ++ r.2.1, r.2.2)
    | (s1, o, some p) => (s1, o, some p)

/-! ## Specification-side notions used to state the claims -/

/-- Number of `Begin` calls in a trace. -/
def beginCount (ops : List Op) : Nat :=
  (ops.filter (fun op => match op with | Op.start _ _ _ _ => true | _ => false)).length

/-- Number of `End` calls in a trace. -/
def endCount (ops : List Op) : Nat :=
  (ops.filter (fun op => match op with | Op.stop _ _ => true | _ => false)).length

/-- The stack of (truncated) names of the regions a caller has opened and
not yet closed, after processing a trace from a given starting stack:
`Begin` pushes, `End` pops. -/
def specStackFrom : List String → List Op → List String
  | stk, [] => stk
  | stk, Op.start n _ _ _ :: ops => specStackFrom (truncateName n :: stk) ops
  | stk, Op.stop _ _ :: ops => specStackFrom stk.tail ops
  | stk, Op.output :: ops => specStackFrom stk ops
  | stk, Op.reset :: ops => specStackFrom stk ops

/-- Well-nested, non-recursive traces: every `End` names the innermost open
region, and no `Begin` re-enters a name that is already open (no direct or
indirect self-recursion); `Reset` is not part of such a measurement pass. -/
def wfTrace : List String → List Op → Bool
  | _, [] => true
  | stk, Op.start n _ _ _ :: ops =>
    !(decide (truncateName n ∈ stk)) && wfTrace (truncateName n :: stk) ops
  | stk, Op.stop n _ :: ops =>
    match stk with
    | [] => false
    | m :: rest => decide (truncateName n = m) && wfTrace rest ops
  | stk, Op.output :: ops => wfTrace stk ops
  | _, Op.reset :: _ => false

/-- The linked chain `currentTiming -> previous -> ...`, walked by ids with
fuel (in every state produced by the code, `previous` ids strictly
decrease, so `timingCount` fuel always suffices). -/
def chainIds (heap : Nat → Timing) : Nat → Option Nat → List Nat
  | 0, _ => []
  | _ + 1, none => []
  | fuel + 1, some t => t :: chainIds heap fuel (heap t).previous

/-- The anchor names of the frames of the chain
`currentTiming -> previous -> ...`, innermost first. -/
def chainNames (s : ProfState) : List String :=
  (chainIds s.timingHeap s.timingCount s.currentTiming).map
    (fun t =>
      match (s.timingHeap t).anchor with
      | some aid => (s.anchorHeap aid).name
      | none => "")

/-- The chain starting at reference `o` consists of exactly one open frame
per name of `stk`, innermost first: each frame belongs to the anchor of
that name, is that anchor's `latest` frame, and links (with strictly
decreasing ids, never through the `totalTiming` cell) to the frame of the
next name. -/
def ChainOk (s : ProfState) : Option Nat → List String → Prop
  | none, [] => True
  | none, _ :: _ => False
  | some _, [] => False
  | some t, nm :: rest =>
    t < s.timingCount ∧ t ≠ s.totalTimingId ∧
    (∃ aid, (s.timingHeap t).anchor = some aid ∧
      lookupName s.anchorsByName nm = some aid ∧
      (s.anchorHeap aid).latest = some t) ∧
    (∀ u, (s.timingHeap t).previous = some u → u < t) ∧
    ChainOk s (s.timingHeap t).previous rest

/-- Reachability invariant for states produced by well-nested,
non-recursive traces: allocation counters dominate the synthetic total
ids, map entries are well-formed (valid, non-total, name-faithful, with a
`latest` frame, and a parent that is `nil` or another mapped anchor), map
values are distinct, `currentAnchor` is `nil` or a mapped anchor, and the
call chain mirrors the open-region stack. -/
structure Inv (s : ProfState) (stk : List String) : Prop where
  totalTimingLt : s.totalTimingId < s.timingCount
  totalAnchorLt : s.totalAnchorId < s.anchorCount
  mapok : ∀ kv ∈ s.anchorsByName,
    kv.2 < s.anchorCount ∧ kv.2 ≠ s.totalAnchorId ∧
    (s.anchorHeap kv.2).name = kv.1 ∧ (s.anchorHeap kv.2).latest ≠ none ∧
    ((s.anchorHeap kv.2).parent = none ∨
      ∃ kv2 ∈ s.anchorsByName, (s.anchorHeap kv.2).parent = some kv2.2)
  valsNodup : (s.anchorsByName.map Prod.snd).Nodup
  curok : s.currentAnchor = none ∨
    ∃ kv ∈ s.anchorsByName, s.currentAnchor = some kv.2
  chain : ChainOk s s.currentTiming stk

/-- Shape invariant of the Anchor Table: the `anchors` array is the unused
slot 0, then the registered anchors in insertion order (slot `n` holds the
`n`-th distinct name's anchor), then nil slots; the insertion index equals
the number of distinct names, which never exceeds
`maxHandledAnchors - 1`. -/
structure TableInv (s : ProfState) : Prop where
  size : s.anchorsByName.length ≤ maxHandledAnchors - 1
  idx : s.index = s.anchorsByName.length
  arr : s.anchors =
    none :: (s.anchorsByName.map (fun kv => some kv.2) ++
      List.replicate (maxHandledAnchors - 1 - s.anchorsByName.length) none)

/-! ## Helper lemmas -/

@[simp]
theorem upd_self {α : Type} (h : Nat → α) (i : Nat) (v : α) : upd h i v i = v := by
  simp [upd]

theorem upd_of_ne {α : Type} (h : Nat → α) {i j : Nat} (v : α) (hij : j ≠ i) :
    upd h i v j = h j := by
  simp [upd, hij]

@[simp]
theorem setAnchorF_envTimer (s : ProfState) (i : Nat) (f : Anchor → Anchor) :
    (setAnchorF s i f).envTimer = s.envTimer := rfl

@[simp]
theorem setAnchorF_cpuFrequency (s : ProfState) (i : Nat) (f : Anchor → Anchor) :
    (setAnchorF s i f).cpuFrequency = s.cpuFrequency := rfl

@[simp]
theorem setAnchorF_index (s : ProfState) (i : Nat) (f : Anchor → Anchor) :
    (setAnchorF s i f).index = s.index := rfl

@[simp]
theorem setAnchorF_anchors (s : ProfState) (i : Nat) (f : Anchor → Anchor) :
    (setAnchorF s i f).anchors = s.anchors := rfl

@[simp]
theorem setAnchorF_anchorsByName (s : ProfState) (i : Nat) (f : Anchor → Anchor) :
    (setAnchorF s i f).anchorsByName = s.anchorsByName := rfl

@[simp]
theorem setAnchorF_currentAnchor (s : ProfState) (i : Nat) (f : Anchor → Anchor) :
    (setAnchorF s i f).currentAnchor = s.currentAnchor := rfl

@[simp]
theorem setAnchorF_currentTiming (s : ProfState) (i : Nat) (f : Anchor → Anchor) :
    (setAnchorF s i f).currentTiming = s.currentTiming := rfl

@[simp]
theorem setAnchorF_totalAnchorId (s : ProfState) (i : Nat) (f : Anchor → Anchor) :
    (setAnchorF s i f).totalAnchorId = s.totalAnchorId := rfl

@[simp]
theorem setAnchorF_totalTimingId (s : ProfState) (i : Nat) (f : Anchor → Anchor) :
    (setAnchorF s i f).totalTimingId = s.totalTimingId := rfl

@[simp]
theorem setAnchorF_anchorCount (s : ProfState) (i : Nat) (f : Anchor → Anchor) :
    (setAnchorF s i f).anchorCount = s.anchorCount := rfl

@[simp]
theorem setAnchorF_timingHeap (s : ProfState) (i : Nat) (f : Anchor → Anchor) :
    (setAnchorF s i f).timingHeap = s.timingHeap := rfl

@[simp]
theorem setAnchorF_timingCount (s : ProfState) (i : Nat) (f : Anchor → Anchor) :
    (setAnchorF s i f).timingCount = s.timingCount := rfl

@[simp]
theorem setAnchorF_anchorHeap_self (s : ProfState) (i : Nat) (f : Anchor → Anchor) :
    (setAnchorF s i f).anchorHeap i = f (s.anchorHeap i) := by
  simp [setAnchorF]

theorem setAnchorF_anchorHeap_ne (s : ProfState) {i j : Nat} (f : Anchor → Anchor)
    (hij : j ≠ i) : (setAnchorF s i f).anchorHeap j = s.anchorHeap j := by
  simp [setAnchorF, upd_of_ne _ _ hij]

@[simp]
theorem setTimingF_envTimer (s : ProfState) (i : Nat) (f : Timing → Timing) :
    (setTimingF s i f).envTimer = s.envTimer := rfl

@[simp]
theorem setTimingF_cpuFrequency (s : ProfState) (i : Nat) (f : Timing → Timing) :
    (setTimingF s i f).cpuFrequency = s.cpuFrequency := rfl

@[simp]
theorem setTimingF_index (s : ProfState) (i : Nat) (f : Timing → Timing) :
    (setTimingF s i f).index = s.index := rfl

@[simp]
theorem setTimingF_anchors (s : ProfState) (i : Nat) (f : Timing → Timing) :
    (setTimingF s i f).anchors = s.anchors := rfl

@[simp]
theorem setTimingF_anchorsByName (s : ProfState) (i : Nat) (f : Timing → Timing) :
    (setTimingF s i f).anchorsByName = s.anchorsByName := rfl

@[simp]
theorem setTimingF_currentAnchor (s : ProfState) (i : Nat) (f : Timing → Timing) :
    (setTimingF s i f).currentAnchor = s.currentAnchor := rfl

@[simp]
theorem setTimingF_currentTiming (s : ProfState) (i : Nat) (f : Timing → Timing) :
    (setTimingF s i f).currentTiming = s.currentTiming := rfl

@[simp]
theorem setTimingF_totalAnchorId (s : ProfState) (i : Nat) (f : Timing → Timing) :
    (setTimingF s i f).totalAnchorId = s.totalAnchorId := rfl

@[simp]
theorem setTimingF_totalTimingId (s : ProfState) (i : Nat) (f : Timing → Timing) :
    (setTimingF s i f).totalTimingId = s.totalTimingId := rfl

@[simp]
theorem setTimingF_anchorCount (s : ProfState) (i : Nat) (f : Timing → Timing) :
    (setTimingF s i f).anchorCount = s.anchorCount := rfl

@[simp]
theorem setTimingF_anchorHeap (s : ProfState) (i : Nat) (f : Timing → Timing) :
    (setTimingF s i f).anchorHeap = s.anchorHeap := rfl

@[simp]
theorem setTimingF_timingCount (s : ProfState) (i : Nat) (f : Timing → Timing) :
    (setTimingF s i f).timingCount = s.timingCount := rfl

@[simp]
theorem setTimingF_timingHeap_self (s : ProfState) (i : Nat) (f : Timing → Timing) :
    (setTimingF s i f).timingHeap i = f (s.timingHeap i) := by
  simp [setTimingF]

theorem setTimingF_timingHeap_ne (s : ProfState) {i j : Nat} (f : Timing → Timing)
    (hij : j ≠ i) : (setTimingF s i f).timingHeap j = s.timingHeap j := by
  simp [setTimingF, upd_of_ne _ _ hij]

@[simp]
theorem calibrate_envTimer (s : ProfState) (c : Int) :
    (calibrate s c).envTimer = s.envTimer := by
  simp only [calibrate]; split <;> rfl

@[simp]
theorem calibrate_index (s : ProfState) (c : Int) : (calibrate s c).index = s.index := by
  simp only [calibrate]; split <;> rfl

@[simp]
theorem calibrate_anchors (s : ProfState) (c : Int) :
    (calibrate s c).anchors = s.anchors := by
  simp only [calibrate]; split <;> rfl

@[simp]
theorem calibrate_anchorsByName (s : ProfState) (c : Int) :
    (calibrate s c).anchorsByName = s.anchorsByName := by
  simp only [calibrate]; split <;> rfl

@[simp]
theorem calibrate_currentAnchor (s : ProfState) (c : Int) :
    (calibrate s c).currentAnchor = s.currentAnchor := by
  simp only [calibrate]; split <;> rfl

@[simp]
theorem calibrate_currentTiming (s : ProfState) (c : Int) :
    (calibrate s c).currentTiming = s.currentTiming := by
  simp only [calibrate]; split <;> rfl

@[simp]
theorem calibrate_totalAnchorId (s : ProfState) (c : Int) :
    (calibrate s c).totalAnchorId = s.totalAnchorId := by
  simp only [calibrate]; split <;> rfl

@[simp]
theorem calibrate_totalTimingId (s : ProfState) (c : Int) :
    (calibrate s c).totalTimingId = s.totalTimingId := by
  simp only [calibrate]; split <;> rfl

@[simp]
theorem calibrate_anchorHeap (s : ProfState) (c : Int) :
    (calibrate s c).anchorHeap = s.anchorHeap := by
  simp only [calibrate]; split <;> rfl

@[simp]
theorem calibrate_anchorCount (s : ProfState) (c : Int) :
    (calibrate s c).anchorCount = s.anchorCount := by
  simp only [calibrate]; split <;> rfl

@[simp]
theorem calibrate_timingHeap (s : ProfState) (c : Int) :
    (calibrate s c).timingHeap = s.timingHeap := by
  simp only [calibrate]; split <;> rfl

@[simp]
theorem calibrate_timingCount (s : ProfState) (c : Int) :
    (calibrate s c).timingCount = s.timingCount := by
  simp only [calibrate]; split <;> rfl

theorem calibrate_of_ne (s : ProfState) (c : Int) (h : s.cpuFrequency ≠ 0) :
    calibrate s c = s := by
  simp [calibrate, h]

theorem mem_of_lookupName {m : List (String × Nat)} {k : String} {v : Nat}
    (h : lookupName m k = some v) : (k, v) ∈ m := by
  induction m with
  | nil => simp [lookupName] at h
  | cons kv rest ih =>
    obtain ⟨k', v'⟩ := kv
    by_cases hk : k' = k
    · subst hk
      simp [lookupName] at h
      simp [h]
    · simp [lookupName, hk] at h
      exact List.mem_cons_of_mem _ (ih h)

theorem lookupName_append_of_some {m l : List (String × Nat)} {k : String} {v : Nat}
    (h : lookupName m k = some v) : lookupName (m ++ l) k = some v := by
  induction m with
  | nil => simp [lookupName] at h
  | cons kv rest ih =>
    obtain ⟨k', v'⟩ := kv
    by_cases hk : k' = k
    · subst hk
      simp [lookupName] at h ⊢
      exact h
    · simp [lookupName, hk] at h ⊢
      exact ih h

theorem lookupName_append_new {m : List (String × Nat)} {k : String} (v : Nat)
    (h : lookupName m k = none) : lookupName (m ++ [(k, v)]) k = some v := by
  induction m with
  | nil => simp [lookupName]
  | cons kv rest ih =>
    obtain ⟨k', v'⟩ := kv
    by_cases hk : k' = k
    · subst hk; simp [lookupName] at h
    · simp [lookupName, hk] at h ⊢
      exact ih h

theorem snd_mem_of_lookupName {m : List (String × Nat)} {k : String} {v : Nat}
    (h : lookupName m k = some v) : v ∈ m.map Prod.snd := by
  exact List.mem_map.mpr ⟨(k, v), mem_of_lookupName h, rfl⟩

theorem lookupName_inj {m : List (String × Nat)} (hnd : (m.map Prod.snd).Nodup)
    {k1 k2 : String} {v1 v2 : Nat} (h1 : lookupName m k1 = some v1)
    (h2 : lookupName m k2 = some v2) (hk : k1 ≠ k2) : v1 ≠ v2 := by
  induction m with
  | nil => simp [lookupName] at h1
  | cons kv rest ih =>
    obtain ⟨k', v'⟩ := kv
    simp only [List.map_cons, List.nodup_cons] at hnd
    by_cases e1 : k' = k1
    · subst e1
      simp [lookupName] at h1
      subst h1
      have : k' ≠ k2 := hk
      simp [lookupName, this] at h2
      intro hv
      exact hnd.1 (hv ▸ snd_mem_of_lookupName h2)
    · by_cases e2 : k' = k2
      · subst e2
        simp [lookupName] at h2
        subst h2
        simp [lookupName, e1] at h1
        intro hv
        exact hnd.1 (hv ▸ snd_mem_of_lookupName h1)
      · simp [lookupName, e1, e2] at h1 h2
        exact ih hnd.2 h1 h2

/-- Elimination principle for `pseq`: to establish `P` of the composite
result it suffices to establish it after the continuation (no panic) and at
the aborted state (panic). -/
theorem pseq_pres {P : ProfState → Prop} {r : ProfState × Option GoPanic}
    {f : ProfState → ProfState × Option GoPanic}
    (hr : P r.1) (hf : ∀ s, P s → P (f s).1) : P (pseq r f).1 := by
  obtain ⟨s, o⟩ := r
  cases o with
  | none => exact hf s hr
  | some p => exact hr

/-- An anchor-heap update that preserves a field preserves it at every
index. -/
theorem setAnchorF_pres_field {β : Type} (g : Anchor → β) (s : ProfState) (i : Nat)
    (f : Anchor → Anchor) (hf : ∀ a, g (f a) = g a) (j : Nat) :
    g ((setAnchorF s i f).anchorHeap j) = g (s.anchorHeap j) := by
  by_cases hj : j = i
  · subst hj
    rw [setAnchorF_anchorHeap_self, hf]
  · rw [setAnchorF_anchorHeap_ne _ _ hj]

/-- A timing-heap update that preserves a field preserves it at every
index. -/
theorem setTimingF_pres_field {β : Type} (g : Timing → β) (s : ProfState) (i : Nat)
    (f : Timing → Timing) (hf : ∀ t, g (f t) = g t) (j : Nat) :
    g ((setTimingF s i f).timingHeap j) = g (s.timingHeap j) := by
  by_cases hj : j = i
  · subst hj
    rw [setTimingF_timingHeap_self, hf]
  · rw [setTimingF_timingHeap_ne _ _ hj]

/-- The state fields that none of `startCont`, `stopResumePrev`,
`stopResumeParent`, `stopFinish` modify. -/
structure SkelEq (s s' : ProfState) : Prop where
  env : s'.envTimer = s.envTimer
  idx : s'.index = s.index
  arr : s'.anchors = s.anchors
  map : s'.anchorsByName = s.anchorsByName
  tA : s'.totalAnchorId = s.totalAnchorId
  tT : s'.totalTimingId = s.totalTimingId
  aCount : s'.anchorCount = s.anchorCount
  freq : s'.cpuFrequency = s.cpuFrequency

theorem skelEq_refl (s : ProfState) : SkelEq s s :=
  ⟨rfl, rfl, rfl, rfl, rfl, rfl, rfl, rfl⟩

theorem skelEq_trans {s1 s2 s3 : ProfState} (h1 : SkelEq s1 s2) (h2 : SkelEq s2 s3) :
    SkelEq s1 s3 :=
  ⟨h2.env.trans h1.env, h2.idx.trans h1.idx, h2.arr.trans h1.arr, h2.map.trans h1.map,
    h2.tA.trans h1.tA, h2.tT.trans h1.tT, h2.aCount.trans h1.aCount, h2.freq.trans h1.freq⟩

theorem setAnchorF_skel (s : ProfState) (i : Nat) (f : Anchor → Anchor) :
    SkelEq s (setAnchorF s i f) := ⟨rfl, rfl, rfl, rfl, rfl, rfl, rfl, rfl⟩

theorem setTimingF_skel (s : ProfState) (i : Nat) (f : Timing → Timing) :
    SkelEq s (setTimingF s i f) := ⟨rfl, rfl, rfl, rfl, rfl, rfl, rfl, rfl⟩

@[simp]
theorem setAnchorF_heap_depth (s : ProfState) (i : Nat) (f : Anchor → Anchor) (j : Nat)
    (hf : ∀ a, (f a).depth = a.depth) :
    ((setAnchorF s i f).anchorHeap j).depth = (s.anchorHeap j).depth :=
  setAnchorF_pres_field (fun a => a.depth) s i f hf j

@[simp]
theorem setAnchorF_heap_name (s : ProfState) (i : Nat) (f : Anchor → Anchor) (j : Nat)
    (hf : ∀ a, (f a).name = a.name) :
    ((setAnchorF s i f).anchorHeap j).name = (s.anchorHeap j).name :=
  setAnchorF_pres_field (fun a => a.name) s i f hf j

@[simp]
theorem setAnchorF_heap_parent (s : ProfState) (i : Nat) (f : Anchor → Anchor) (j : Nat)
    (hf : ∀ a, (f a).parent = a.parent) :
    ((setAnchorF s i f).anchorHeap j).parent = (s.anchorHeap j).parent :=
  setAnchorF_pres_field (fun a => a.parent) s i f hf j

@[simp]
theorem setAnchorF_heap_latest (s : ProfState) (i : Nat) (f : Anchor → Anchor) (j : Nat)
    (hf : ∀ a, (f a).latest = a.latest) :
    ((setAnchorF s i f).anchorHeap j).latest = (s.anchorHeap j).latest :=
  setAnchorF_pres_field (fun a => a.latest) s i f hf j

@[simp]
theorem setAnchorF_heap_hits (s : ProfState) (i : Nat) (f : Anchor → Anchor) (j : Nat)
    (hf : ∀ a, (f a).hits = a.hits) :
    ((setAnchorF s i f).anchorHeap j).hits = (s.anchorHeap j).hits :=
  setAnchorF_pres_field (fun a => a.hits) s i f hf j

@[simp]
theorem setAnchorF_heap_bytes (s : ProfState) (i : Nat) (f : Anchor → Anchor) (j : Nat)
    (hf : ∀ a, (f a).bytes = a.bytes) :
    ((setAnchorF s i f).anchorHeap j).bytes = (s.anchorHeap j).bytes :=
  setAnchorF_pres_field (fun a => a.bytes) s i f hf j

@[simp]
theorem setAnchorF_heap_tscount (s : ProfState) (i : Nat) (f : Anchor → Anchor) (j : Nat)
    (hf : ∀ a, (f a).tscount = a.tscount) :
    ((setAnchorF s i f).anchorHeap j).tscount = (s.anchorHeap j).tscount :=
  setAnchorF_pres_field (fun a => a.tscount) s i f hf j

@[simp]
theorem setTimingF_heap_previous (s : ProfState) (i : Nat) (f : Timing → Timing) (j : Nat)
    (hf : ∀ t, (f t).previous = t.previous) :
    ((setTimingF s i f).timingHeap j).previous = (s.timingHeap j).previous :=
  setTimingF_pres_field (fun t => t.previous) s i f hf j

@[simp]
theorem setTimingF_heap_anchor (s : ProfState) (i : Nat) (f : Timing → Timing) (j : Nat)
    (hf : ∀ t, (f t).anchor = t.anchor) :
    ((setTimingF s i f).timingHeap j).anchor = (s.timingHeap j).anchor :=
  setTimingF_pres_field (fun t => t.anchor) s i f hf j

/-- The anchor fields that `Stop` never writes (it only touches `tscount`,
`elapsed` and `active`), and that `startCont` never writes apart from
`hits`/`bytes`/`latest` handled separately. -/
def AnchorFieldsPres (s s' : ProfState) : Prop :=
  ∀ j, (s'.anchorHeap j).depth = (s.anchorHeap j).depth ∧
    (s'.anchorHeap j).name = (s.anchorHeap j).name ∧
    (s'.anchorHeap j).parent = (s.anchorHeap j).parent ∧
    (s'.anchorHeap j).latest = (s.anchorHeap j).latest ∧
    (s'.anchorHeap j).hits = (s.anchorHeap j).hits ∧
    (s'.anchorHeap j).bytes = (s.anchorHeap j).bytes

theorem anchorPres_refl (s : ProfState) : AnchorFieldsPres s s :=
  fun _ => ⟨rfl, rfl, rfl, rfl, rfl, rfl⟩

theorem anchorPres_trans {s1 s2 s3 : ProfState}
    (h1 : AnchorFieldsPres s1 s2) (h2 : AnchorFieldsPres s2 s3) : AnchorFieldsPres s1 s3 := by
  intro j
  obtain ⟨a1, b1, c1, d1, e1, f1⟩ := h1 j
  obtain ⟨a2, b2, c2, d2, e2, f2⟩ := h2 j
  exact ⟨a2.trans a1, b2.trans b1, c2.trans c1, d2.trans d1, e2.trans e1, f2.trans f1⟩

@[simp]
theorem armTotal_envTimer (s : ProfState) (c : Int) : (armTotal s c).envTimer = s.envTimer := by
  unfold armTotal; dsimp only; split <;> rfl

@[simp]
theorem armTotal_cpuFrequency (s : ProfState) (c : Int) :
    (armTotal s c).cpuFrequency = s.cpuFrequency := by
  unfold armTotal; dsimp only; split <;> rfl

@[simp]
theorem armTotal_index (s : ProfState) (c : Int) : (armTotal s c).index = s.index := by
  unfold armTotal; dsimp only; split <;> rfl

@[simp]
theorem armTotal_anchors (s : ProfState) (c : Int) : (armTotal s c).anchors = s.anchors := by
  unfold armTotal; dsimp only; split <;> rfl

@[simp]
theorem armTotal_anchorsByName (s : ProfState) (c : Int) :
    (armTotal s c).anchorsByName = s.anchorsByName := by
  unfold armTotal; dsimp only; split <;> rfl

@[simp]
theorem armTotal_currentAnchor (s : ProfState) (c : Int) :
    (armTotal s c).currentAnchor = s.currentAnchor := by
  unfold armTotal; dsimp only; split <;> rfl

@[simp]
theorem armTotal_currentTiming (s : ProfState) (c : Int) :
    (armTotal s c).currentTiming = s.currentTiming := by
  unfold armTotal; dsimp only; split <;> rfl

@[simp]
theorem armTotal_totalAnchorId (s : ProfState) (c : Int) :
    (armTotal s c).totalAnchorId = s.totalAnchorId := by
  unfold armTotal; dsimp only; split <;> rfl

@[simp]
theorem armTotal_totalTimingId (s : ProfState) (c : Int) :
    (armTotal s c).totalTimingId = s.totalTimingId := by
  unfold armTotal; dsimp only; split <;> rfl

@[simp]
theorem armTotal_anchorCount (s : ProfState) (c : Int) :
    (armTotal s c).anchorCount = s.anchorCount := by
  unfold armTotal; dsimp only; split <;> rfl

@[simp]
theorem armTotal_timingCount (s : ProfState) (c : Int) :
    (armTotal s c).timingCount = s.timingCount := by
  unfold armTotal; dsimp only; split <;> rfl

theorem armTotal_timingHeap_ne (s : ProfState) (c : Int) {j : Nat}
    (hj : j ≠ s.totalTimingId) : (armTotal s c).timingHeap j = s.timingHeap j := by
  unfold armTotal
  dsimp only
  split
  · rw [setAnchorF_timingHeap, setTimingF_timingHeap_ne _ _ hj]
  · rfl

theorem armTotal_anchorHeap_ne (s : ProfState) (c : Int) {j : Nat}
    (hj : j ≠ s.totalAnchorId) : (armTotal s c).anchorHeap j = s.anchorHeap j := by
  unfold armTotal
  dsimp only
  split
  · rw [setAnchorF_anchorHeap_ne _ _ (by simpa using hj)]
    rfl
  · rfl

theorem armTotal_latest_none (s : ProfState) (c : Int) (j : Nat)
    (h : ((armTotal s c).anchorHeap j).latest = none) :
    (s.anchorHeap j).latest = none := by
  unfold armTotal at h
  dsimp only at h
  split at h
  · simp only [setTimingF_totalAnchorId, setTimingF_totalTimingId] at h
    by_cases hj : j = s.totalAnchorId
    · subst hj
      rw [setAnchorF_anchorHeap_self] at h
      simp at h
    · rw [setAnchorF_anchorHeap_ne _ _ hj, setTimingF_anchorHeap] at h
      exact h
  · exact h

@[simp]
theorem armTotal_heap_depth (s : ProfState) (c : Int) (j : Nat) :
    ((armTotal s c).anchorHeap j).depth = (s.anchorHeap j).depth := by
  unfold armTotal; dsimp only; split <;> simp

@[simp]
theorem armTotal_heap_name (s : ProfState) (c : Int) (j : Nat) :
    ((armTotal s c).anchorHeap j).name = (s.anchorHeap j).name := by
  unfold armTotal; dsimp only; split <;> simp

@[simp]
theorem armTotal_heap_parent (s : ProfState) (c : Int) (j : Nat) :
    ((armTotal s c).anchorHeap j).parent = (s.anchorHeap j).parent := by
  unfold armTotal; dsimp only; split <;> simp

@[simp]
theorem armTotal_heap_hits (s : ProfState) (c : Int) (j : Nat) :
    ((armTotal s c).anchorHeap j).hits = (s.anchorHeap j).hits := by
  unfold armTotal; dsimp only; split <;> simp

@[simp]
theorem armTotal_heap_bytes (s : ProfState) (c : Int) (j : Nat) :
    ((armTotal s c).anchorHeap j).bytes = (s.anchorHeap j).bytes := by
  unfold armTotal; dsimp only; split <;> simp

@[simp]
theorem armTotal_heap_tscount (s : ProfState) (c : Int) (j : Nat) :
    ((armTotal s c).anchorHeap j).tscount = (s.anchorHeap j).tscount := by
  unfold armTotal; dsimp only; split <;> simp

@[simp]
theorem chargeInterrupted_envTimer (s : ProfState) (c : Int) :
    (chargeInterrupted s c).1.envTimer = s.envTimer := by
  unfold chargeInterrupted; split <;> (try split) <;> rfl

@[simp]
theorem chargeInterrupted_cpuFrequency (s : ProfState) (c : Int) :
    (chargeInterrupted s c).1.cpuFrequency = s.cpuFrequency := by
  unfold chargeInterrupted; split <;> (try split) <;> rfl

@[simp]
theorem chargeInterrupted_index (s : ProfState) (c : Int) :
    (chargeInterrupted s c).1.index = s.index := by
  unfold chargeInterrupted; split <;> (try split) <;> rfl

@[simp]
theorem chargeInterrupted_anchors (s : ProfState) (c : Int) :
    (chargeInterrupted s c).1.anchors = s.anchors := by
  unfold chargeInterrupted; split <;> (try split) <;> rfl

@[simp]
theorem chargeInterrupted_anchorsByName (s : ProfState) (c : Int) :
    (chargeInterrupted s c).1.anchorsByName = s.anchorsByName := by
  unfold chargeInterrupted; split <;> (try split) <;> rfl

@[simp]
theorem chargeInterrupted_currentAnchor (s : ProfState) (c : Int) :
    (chargeInterrupted s c).1.currentAnchor = s.currentAnchor := by
  unfold chargeInterrupted; split <;> (try split) <;> rfl

@[simp]
theorem chargeInterrupted_currentTiming (s : ProfState) (c : Int) :
    (chargeInterrupted s c).1.currentTiming = s.currentTiming := by
  unfold chargeInterrupted; split <;> (try split) <;> rfl

@[simp]
theorem chargeInterrupted_totalAnchorId (s : ProfState) (c : Int) :
    (chargeInterrupted s c).1.totalAnchorId = s.totalAnchorId := by
  unfold chargeInterrupted; split <;> (try split) <;> rfl

@[simp]
theorem chargeInterrupted_totalTimingId (s : ProfState) (c : Int) :
    (chargeInterrupted s c).1.totalTimingId = s.totalTimingId := by
  unfold chargeInterrupted; split <;> (try split) <;> rfl

@[simp]
theorem chargeInterrupted_anchorCount (s : ProfState) (c : Int) :
    (chargeInterrupted s c).1.anchorCount = s.anchorCount := by
  unfold chargeInterrupted; split <;> (try split) <;> rfl

@[simp]
theorem chargeInterrupted_timingCount (s : ProfState) (c : Int) :
    (chargeInterrupted s c).1.timingCount = s.timingCount := by
  unfold chargeInterrupted; split <;> (try split) <;> rfl

@[simp]
theorem chargeInterrupted_timingHeap (s : ProfState) (c : Int) :
    (chargeInterrupted s c).1.timingHeap = s.timingHeap := by
  unfold chargeInterrupted; split <;> (try split) <;> rfl

theorem chargeInterrupted_anchorFields (s : ProfState) (c : Int) :
    AnchorFieldsPres s (chargeInterrupted s c).1 := by
  unfold chargeInterrupted
  split <;> (try split) <;> intro j <;> refine ⟨?_, ?_, ?_, ?_, ?_, ?_⟩ <;> simp

theorem chargeInterrupted_of_none (s : ProfState) (c : Int) (h : s.currentTiming = none) :
    chargeInterrupted s c = (s, none) := by
  unfold chargeInterrupted
  rw [h]

theorem chargeInterrupted_of_some (s : ProfState) (c : Int) (ct ca : Nat)
    (hct : s.currentTiming = some ct) (hca : (s.timingHeap ct).anchor = some ca) :
    chargeInterrupted s c =
      (setAnchorF s ca
        (fun a => { a with active := false,
                           tscount := a.tscount + c - (s.timingHeap ct).start }), none) := by
  unfold chargeInterrupted
  rw [hct]
  dsimp only
  rw [hca]

@[simp]
theorem startFrame_envTimer (s : ProfState) (aid : Nat) (b c : Int) :
    (startFrame s aid b c).envTimer = s.envTimer := rfl

@[simp]
theorem startFrame_cpuFrequency (s : ProfState) (aid : Nat) (b c : Int) :
    (startFrame s aid b c).cpuFrequency = s.cpuFrequency := rfl

@[simp]
theorem startFrame_index (s : ProfState) (aid : Nat) (b c : Int) :
    (startFrame s aid b c).index = s.index := rfl

@[simp]
theorem startFrame_anchors (s : ProfState) (aid : Nat) (b c : Int) :
    (startFrame s aid b c).anchors = s.anchors := rfl

@[simp]
theorem startFrame_anchorsByName (s : ProfState) (aid : Nat) (b c : Int) :
    (startFrame s aid b c).anchorsByName = s.anchorsByName := rfl

@[simp]
theorem startFrame_currentAnchor (s : ProfState) (aid : Nat) (b c : Int) :
    (startFrame s aid b c).currentAnchor = some aid := rfl

@[simp]
theorem startFrame_currentTiming (s : ProfState) (aid : Nat) (b c : Int) :
    (startFrame s aid b c).currentTiming = s.currentTiming := rfl

@[simp]
theorem startFrame_totalAnchorId (s : ProfState) (aid : Nat) (b c : Int) :
    (startFrame s aid b c).totalAnchorId = s.totalAnchorId := rfl

@[simp]
theorem startFrame_totalTimingId (s : ProfState) (aid : Nat) (b c : Int) :
    (startFrame s aid b c).totalTimingId = s.totalTimingId := rfl

@[simp]
theorem startFrame_anchorCount (s : ProfState) (aid : Nat) (b c : Int) :
    (startFrame s aid b c).anchorCount = s.anchorCount := rfl

@[simp]
theorem startFrame_timingCount (s : ProfState) (aid : Nat) (b c : Int) :
    (startFrame s aid b c).timingCount = s.timingCount + 1 := rfl

@[simp]
theorem startFrame_timingHeap_new (s : ProfState) (aid : Nat) (b c : Int) :
    (startFrame s aid b c).timingHeap s.timingCount =
      { start := c, previous := s.currentTiming, anchor := some aid } := by
  unfold startFrame
  dsimp only
  rw [setAnchorF_timingHeap]
  dsimp only
  simp only [setAnchorF_timingCount, setAnchorF_currentTiming]
  rw [upd_self]

theorem startFrame_timingHeap_ne (s : ProfState) (aid : Nat) (b c : Int) {j : Nat}
    (hj : j ≠ s.timingCount) :
    (startFrame s aid b c).timingHeap j = s.timingHeap j := by
  unfold startFrame
  dsimp only
  rw [setAnchorF_timingHeap]
  dsimp only
  simp only [setAnchorF_timingCount, setAnchorF_currentTiming]
  rw [upd_of_ne _ _ hj, setAnchorF_timingHeap]

@[simp]
theorem startFrame_latest_self (s : ProfState) (aid : Nat) (b c : Int) :
    ((startFrame s aid b c).anchorHeap aid).latest = some s.timingCount := by
  unfold startFrame
  dsimp only
  rw [setAnchorF_anchorHeap_self]
  rfl

theorem startFrame_anchorHeap_ne (s : ProfState) (aid : Nat) (b c : Int) {j : Nat}
    (hj : j ≠ aid) :
    (startFrame s aid b c).anchorHeap j = s.anchorHeap j := by
  unfold startFrame
  dsimp only
  rw [setAnchorF_anchorHeap_ne _ _ hj]
  dsimp only
  rw [setAnchorF_anchorHeap_ne _ _ hj]

@[simp]
theorem startFrame_heap_depth (s : ProfState) (aid : Nat) (b c : Int) (j : Nat) :
    ((startFrame s aid b c).anchorHeap j).depth = (s.anchorHeap j).depth := by
  unfold startFrame
  dsimp only
  simp

@[simp]
theorem startFrame_heap_name (s : ProfState) (aid : Nat) (b c : Int) (j : Nat) :
    ((startFrame s aid b c).anchorHeap j).name = (s.anchorHeap j).name := by
  unfold startFrame
  dsimp only
  simp

@[simp]
theorem startFrame_heap_parent (s : ProfState) (aid : Nat) (b c : Int) (j : Nat) :
    ((startFrame s aid b c).anchorHeap j).parent = (s.anchorHeap j).parent := by
  unfold startFrame
  dsimp only
  simp

theorem startFrame_latest_none (s : ProfState) (aid : Nat) (b c : Int) (j : Nat)
    (h : ((startFrame s aid b c).anchorHeap j).latest = none) :
    (s.anchorHeap j).latest = none ∧ j ≠ aid := by
  by_cases hj : j = aid
  · subst hj
    rw [startFrame_latest_self] at h
    exact Option.noConfusion h
  · rw [startFrame_anchorHeap_ne s aid b c hj] at h
    exact ⟨h, hj⟩

theorem startCont_skel (s : ProfState) (aid : Nat) (b now : Int) :
    SkelEq s (startCont s aid b now).1 ∧
    (startCont s aid b now).1.timingCount = s.timingCount + 1 := by
  unfold startCont
  dsimp only
  apply pseq_pres (P := fun x => SkelEq s x ∧ x.timingCount = s.timingCount + 1)
  · refine ⟨⟨?_, ?_, ?_, ?_, ?_, ?_, ?_, ?_⟩, ?_⟩ <;> simp
  · intro s6 h6
    exact ⟨⟨h6.1.env, h6.1.idx, h6.1.arr, h6.1.map, h6.1.tA, h6.1.tT, h6.1.aCount,
      h6.1.freq⟩, h6.2⟩

theorem stopResumePrev_skel (s : ProfState) (pt : Option Nat) (endv : Int) :
    SkelEq s (stopResumePrev s pt endv).1 ∧
    (stopResumePrev s pt endv).1.timingCount = s.timingCount ∧
    (stopResumePrev s pt endv).1.currentAnchor = s.currentAnchor ∧
    (stopResumePrev s pt endv).1.currentTiming = s.currentTiming := by
  unfold stopResumePrev
  dsimp only
  split <;> (try split) <;> refine ⟨⟨?_, ?_, ?_, ?_, ?_, ?_, ?_, ?_⟩, ?_, ?_, ?_⟩ <;> simp

theorem stopResumeParent_skel (s : ProfState) (aid : Nat) (endv : Int) :
    SkelEq s (stopResumeParent s aid endv).1 ∧
    (stopResumeParent s aid endv).1.timingCount = s.timingCount ∧
    (stopResumeParent s aid endv).1.currentAnchor = s.currentAnchor ∧
    (stopResumeParent s aid endv).1.currentTiming = s.currentTiming := by
  unfold stopResumeParent
  dsimp only
  split <;> (try split) <;> refine ⟨⟨?_, ?_, ?_, ?_, ?_, ?_, ?_, ?_⟩, ?_, ?_, ?_⟩ <;> simp

theorem stopFinish_skel (s : ProfState) (aid lt : Nat) (pt : Option Nat) (endv : Int) :
    SkelEq s (stopFinish s aid lt pt endv) ∧
    (stopFinish s aid lt pt endv).timingCount = s.timingCount := by
  unfold stopFinish
  dsimp only
  exact ⟨⟨rfl, rfl, rfl, rfl, rfl, rfl, rfl, rfl⟩, rfl⟩

theorem stop_skel (s : ProfState) (n : String) (t : Int) :
    SkelEq s (stop s n t).1 ∧ (stop s n t).1.timingCount = s.timingCount := by
  unfold stop
  dsimp only
  split
  · exact ⟨skelEq_refl s, rfl⟩
  · split
    · exact ⟨skelEq_refl s, rfl⟩
    · split
      · exact ⟨skelEq_refl s, rfl⟩
      · apply pseq_pres (P := fun x => SkelEq s x ∧ x.timingCount = s.timingCount)
        · obtain ⟨h1, h2, _, _⟩ := stopResumePrev_skel s _ t
          exact ⟨h1, h2⟩
        · intro s1 h1
          apply pseq_pres (P := fun x => SkelEq s x ∧ x.timingCount = s.timingCount)
          · obtain ⟨g1, g2, _, _⟩ := stopResumeParent_skel s1 _ t
            exact ⟨skelEq_trans h1.1 g1, g2.trans h1.2⟩
          · intro s2 h2
            obtain ⟨k1, k2⟩ := stopFinish_skel s2 _ _ _ t
            exact ⟨skelEq_trans h2.1 k1, k2.trans h2.2⟩

/-- Full characterization of the non-panicking anchor-creation block. -/
theorem createAnchor_ok (s : ProfState) (nm : String) (hcap : s.index + 1 < s.anchors.length) :
    (createAnchor s nm).2 = none ∧
    (createAnchor s nm).1.envTimer = s.envTimer ∧
    (createAnchor s nm).1.cpuFrequency = s.cpuFrequency ∧
    (createAnchor s nm).1.index = s.index + 1 ∧
    (createAnchor s nm).1.anchors = s.anchors.set (s.index + 1) (some s.anchorCount) ∧
    (createAnchor s nm).1.anchorsByName = s.anchorsByName ++ [(nm, s.anchorCount)] ∧
    (createAnchor s nm).1.currentAnchor = s.currentAnchor ∧
    (createAnchor s nm).1.currentTiming = s.currentTiming ∧
    (createAnchor s nm).1.totalAnchorId = s.totalAnchorId ∧
    (createAnchor s nm).1.totalTimingId = s.totalTimingId ∧
    (createAnchor s nm).1.anchorCount = s.anchorCount + 1 ∧
    (createAnchor s nm).1.timingHeap = s.timingHeap ∧
    (createAnchor s nm).1.timingCount = s.timingCount ∧
    (∀ j, j ≠ s.anchorCount → (createAnchor s nm).1.anchorHeap j = s.anchorHeap j) ∧
    ((createAnchor s nm).1.anchorHeap s.anchorCount).name = nm ∧
    ((createAnchor s nm).1.anchorHeap s.anchorCount).active = true ∧
    ((createAnchor s nm).1.anchorHeap s.anchorCount).hits = 0 ∧
    ((createAnchor s nm).1.anchorHeap s.anchorCount).bytes = 0 ∧
    ((createAnchor s nm).1.anchorHeap s.anchorCount).tscount = 0 ∧
    ((createAnchor s nm).1.anchorHeap s.anchorCount).latest = none ∧
    ((createAnchor s nm).1.anchorHeap s.anchorCount).parent = s.currentAnchor := by
  unfold createAnchor
  dsimp only
  rw [if_pos (by simpa using hcap)]
  split
  · rename_i cid hca
    refine ⟨rfl, rfl, rfl, rfl, rfl, rfl, rfl, rfl, rfl, rfl, rfl, rfl, rfl,
      ?_, ?_, ?_, ?_, ?_, ?_, ?_, ?_⟩
    · intro j hj
      rw [setAnchorF_anchorHeap_ne _ _ hj, setAnchorF_anchorHeap_ne _ _ hj]
      dsimp only
      rw [upd_of_ne _ _ hj]
    all_goals simp [Anchor.zero]
  · refine ⟨rfl, rfl, rfl, rfl, rfl, rfl, rfl, rfl, rfl, rfl, rfl, rfl, rfl,
      ?_, ?_, ?_, ?_, ?_, ?_, ?_, ?_⟩
    · intro j hj
      rw [setAnchorF_anchorHeap_ne _ _ hj]
      dsimp only
      rw [upd_of_ne _ _ hj]
    all_goals simp [Anchor.zero]

/-- Depth of the freshly created anchor when no anchor is current. -/
theorem createAnchor_depth_root (s : ProfState) (nm : String)
    (hcap : s.index + 1 < s.anchors.length) (hca : s.currentAnchor = none) :
    ((createAnchor s nm).1.anchorHeap s.anchorCount).depth = 0 := by
  unfold createAnchor
  dsimp only
  rw [if_pos (by simpa using hcap)]
  rw [hca]
  simp [Anchor.zero]

/-- Depth of the freshly created anchor under a current anchor `cid` (with
`cid` a previously allocated cell): the parent's depth plus one. -/
theorem createAnchor_depth_child (s : ProfState) (nm : String) (cid : Nat)
    (hcap : s.index + 1 < s.anchors.length) (hca : s.currentAnchor = some cid)
    (hcid : cid ≠ s.anchorCount) :
    ((createAnchor s nm).1.anchorHeap s.anchorCount).depth = (s.anchorHeap cid).depth + 1 := by
  unfold createAnchor
  dsimp only
  rw [if_pos (by simpa using hcap)]
  rw [hca]
  simp [upd_of_ne _ _ hcid]

/-- The panicking anchor-creation block: map insertion, index increment and
the heap allocation have already happened when the out-of-range store
aborts; `depth` and `parent` are never assigned. -/
theorem createAnchor_panic (s : ProfState) (nm : String)
    (hcap : ¬ s.index + 1 < s.anchors.length) :
    createAnchor s nm =
      ({ s with
          anchorHeap := upd s.anchorHeap s.anchorCount
            { Anchor.zero with name := nm, active := true }
          anchorCount := s.anchorCount + 1
          anchorsByName := s.anchorsByName ++ [(nm, s.anchorCount)]
          index := s.index + 1 }, some GoPanic.indexOutOfRange) := by
  unfold createAnchor
  dsimp only
  rw [if_neg (by simpa using hcap)]

/-- `StartThroughput` when profiling is disabled is an identity. -/
theorem startThroughput_disabled (s : ProfState) (n : String) (b c now : Int)
    (h : s.envTimer = "0") : startThroughput s n b c now = (s, none) := by
  unfold startThroughput
  rw [if_pos h]

/-- `StartThroughput` on an already-known (truncated) name. -/
theorem startThroughput_existing (s : ProfState) (n : String) (b c now : Int) (aid : Nat)
    (henv : s.envTimer ≠ "0")
    (hlk : lookupName s.anchorsByName (truncateName n) = some aid) :
    startThroughput s n b c now = startCont (calibrate s c) aid b now := by
  unfold startThroughput
  rw [if_neg henv]
  dsimp only
  rw [show lookupName (calibrate s c).anchorsByName (truncateName n) = some aid by
    rw [calibrate_anchorsByName]; exact hlk]

/-- `StartThroughput` on a new name with room in the table. -/
theorem startThroughput_new_ok (s : ProfState) (n : String) (b c now : Int)
    (henv : s.envTimer ≠ "0")
    (hlk : lookupName s.anchorsByName (truncateName n) = none)
    (hcap : s.index + 1 < s.anchors.length) :
    startThroughput s n b c now =
      startCont (createAnchor (calibrate s c) (truncateName n)).1 s.anchorCount b now := by
  unfold startThroughput
  rw [if_neg henv]
  dsimp only
  rw [show lookupName (calibrate s c).anchorsByName (truncateName n) = none by
    rw [calibrate_anchorsByName]; exact hlk]
  have h2 := (createAnchor_ok (calibrate s c) (truncateName n)
    (by rw [calibrate_index, calibrate_anchors]; exact hcap)).1
  rcases hE : createAnchor (calibrate s c) (truncateName n) with ⟨s2, p⟩
  rw [hE] at h2
  dsimp only at h2
  subst h2
  rw [calibrate_anchorCount]

/-- `StartThroughput` on a new name when the table is full: the store at
`anchors[index]` is out of range. -/
theorem startThroughput_new_panic (s : ProfState) (n : String) (b c now : Int)
    (henv : s.envTimer ≠ "0")
    (hlk : lookupName s.anchorsByName (truncateName n) = none)
    (hcap : ¬ s.index + 1 < s.anchors.length) :
    startThroughput s n b c now =
      ((createAnchor (calibrate s c) (truncateName n)).1, some GoPanic.indexOutOfRange) := by
  unfold startThroughput
  rw [if_neg henv]
  dsimp only
  rw [show lookupName (calibrate s c).anchorsByName (truncateName n) = none by
    rw [calibrate_anchorsByName]; exact hlk]
  have h2 := createAnchor_panic (calibrate s c) (truncateName n)
    (by rw [calibrate_index, calibrate_anchors]; exact hcap)
  rw [h2]

theorem stopResumePrev_anchorFields (s : ProfState) (pt : Option Nat) (endv : Int) :
    AnchorFieldsPres s (stopResumePrev s pt endv).1 := by
  unfold stopResumePrev
  dsimp only
  split <;> (try split) <;> intro j <;>
    refine ⟨?_, ?_, ?_, ?_, ?_, ?_⟩ <;> simp

theorem stopResumeParent_anchorFields (s : ProfState) (aid : Nat) (endv : Int) :
    AnchorFieldsPres s (stopResumeParent s aid endv).1 := by
  unfold stopResumeParent
  dsimp only
  split <;> (try split) <;> intro j <;>
    refine ⟨?_, ?_, ?_, ?_, ?_, ?_⟩ <;> simp

theorem stopFinish_anchorFields (s : ProfState) (aid lt : Nat) (pt : Option Nat) (endv : Int) :
    AnchorFieldsPres s (stopFinish s aid lt pt endv) := by
  unfold stopFinish
  dsimp only
  intro j
  refine ⟨?_, ?_, ?_, ?_, ?_, ?_⟩ <;> simp

theorem stop_anchorFields (s : ProfState) (n : String) (t : Int) :
    AnchorFieldsPres s (stop s n t).1 := by
  unfold stop
  dsimp only
  split
  · exact anchorPres_refl s
  · split
    · exact anchorPres_refl s
    · split
      · exact anchorPres_refl s
      · apply pseq_pres (P := fun x => AnchorFieldsPres s x)
        · exact stopResumePrev_anchorFields s _ t
        · intro s1 h1
          apply pseq_pres (P := fun x => AnchorFieldsPres s x)
          · exact anchorPres_trans h1 (stopResumeParent_anchorFields s1 _ t)
          · intro s2 h2
            exact anchorPres_trans h2 (stopFinish_anchorFields s2 _ _ _ t)

/-- `Stop` only rewrites the `start` field of timing cells: the chain links
(`previous`) and owners (`anchor`) of every cell are untouched. -/
def TimingLinksPres (s s' : ProfState) : Prop :=
  ∀ j, (s'.timingHeap j).previous = (s.timingHeap j).previous ∧
    (s'.timingHeap j).anchor = (s.timingHeap j).anchor

theorem timingPres_refl (s : ProfState) : TimingLinksPres s s := fun _ => ⟨rfl, rfl⟩

theorem timingPres_trans {s1 s2 s3 : ProfState}
    (h1 : TimingLinksPres s1 s2) (h2 : TimingLinksPres s2 s3) : TimingLinksPres s1 s3 := by
  intro j
  exact ⟨(h2 j).1.trans (h1 j).1, (h2 j).2.trans (h1 j).2⟩

theorem stopResumePrev_timingLinks (s : ProfState) (pt : Option Nat) (endv : Int) :
    TimingLinksPres s (stopResumePrev s pt endv).1 := by
  unfold stopResumePrev
  dsimp only
  split <;> (try split) <;> intro j <;> constructor <;> simp

theorem stopResumeParent_timingLinks (s : ProfState) (aid : Nat) (endv : Int) :
    TimingLinksPres s (stopResumeParent s aid endv).1 := by
  unfold stopResumeParent
  dsimp only
  split <;> (try split) <;> intro j <;> constructor <;> simp

theorem stopFinish_timingLinks (s : ProfState) (aid lt : Nat) (pt : Option Nat) (endv : Int) :
    TimingLinksPres s (stopFinish s aid lt pt endv) := by
  unfold stopFinish
  dsimp only
  intro j
  exact ⟨rfl, rfl⟩

theorem stop_timingLinks (s : ProfState) (n : String) (t : Int) :
    TimingLinksPres s (stop s n t).1 := by
  unfold stop
  dsimp only
  split
  · exact timingPres_refl s
  · split
    · exact timingPres_refl s
    · split
      · exact timingPres_refl s
      · apply pseq_pres (P := fun x => TimingLinksPres s x)
        · exact stopResumePrev_timingLinks s _ t
        · intro s1 h1
          apply pseq_pres (P := fun x => TimingLinksPres s x)
          · exact timingPres_trans h1 (stopResumeParent_timingLinks s1 _ t)
          · intro s2 h2
            exact timingPres_trans h2 (stopFinish_timingLinks s2 _ _ _ t)

/-- `startCont` never writes `depth`, `name` or `parent` of any anchor
cell. -/
theorem startCont_pres_depth_name_parent (s : ProfState) (aid : Nat) (b now : Int) (j : Nat) :
    ((startCont s aid b now).1.anchorHeap j).depth = (s.anchorHeap j).depth ∧
    ((startCont s aid b now).1.anchorHeap j).name = (s.anchorHeap j).name ∧
    ((startCont s aid b now).1.anchorHeap j).parent = (s.anchorHeap j).parent := by
  unfold startCont
  dsimp only
  apply pseq_pres (P := fun x => (x.anchorHeap j).depth = (s.anchorHeap j).depth ∧
    (x.anchorHeap j).name = (s.anchorHeap j).name ∧
    (x.anchorHeap j).parent = (s.anchorHeap j).parent)
  · refine ⟨((chargeInterrupted_anchorFields _ now j).1).trans ?_,
      ((chargeInterrupted_anchorFields _ now j).2.1).trans ?_,
      ((chargeInterrupted_anchorFields _ now j).2.2.1).trans ?_⟩ <;> simp
  · intro s6 h6
    exact h6

theorem stop_disabled (s : ProfState) (n : String) (t : Int) (h : s.envTimer = "0") :
    stop s n t = (s, none) := by
  unfold stop
  rw [if_pos h]

theorem output_disabled (s : ProfState) (h : s.envTimer = "0") : output s = (s, []) := by
  unfold output
  rw [if_pos h]

/-- When the frequency is already calibrated, `StartThroughput` never
changes it (the calibration branch is not taken and nothing else writes
`cpuFrequency`). -/
theorem startThroughput_cpuFrequency_pres (s : ProfState) (n : String) (b c now : Int)
    (h : s.cpuFrequency ≠ 0) :
    (startThroughput s n b c now).1.cpuFrequency = s.cpuFrequency := by
  by_cases henv : s.envTimer = "0"
  · rw [startThroughput_disabled s n b c now henv]
  · rcases hlk : lookupName s.anchorsByName (truncateName n) with _ | aid
    · by_cases hcap : s.index + 1 < s.anchors.length
      · rw [startThroughput_new_ok s n b c now henv hlk hcap]
        rw [(startCont_skel _ s.anchorCount b now).1.freq]
        rw [(createAnchor_ok (calibrate s c) (truncateName n) (by simpa using hcap)).2.2.1]
        rw [calibrate_of_ne s c h]
      · rw [startThroughput_new_panic s n b c now henv hlk hcap]
        rw [createAnchor_panic (calibrate s c) (truncateName n) (by simpa using hcap)]
        dsimp only
        rw [calibrate_of_ne s c h]
    · rw [startThroughput_existing s n b c now aid henv hlk]
      rw [(startCont_skel _ aid b now).1.freq, calibrate_of_ne s c h]

/-! ## Claim C8 -/

/-- C8: `Report()` is a pure, deterministic read: `Output` returns the
state unchanged, and calling it twice from the same state with no
intervening operation produces identical output (identical `OutLine`
lists, hence character-for-character identical text). -/
theorem c8_report_pure_and_idempotent (s : ProfState) :
    (output s).1 = s ∧ (output ((output s).1)).2 = (output s).2 := by
  have h1 : (output s).1 = s := by
    unfold output
    dsimp only
    split <;> rfl
  exact ⟨h1, by rw [h1]⟩

/-! ## Claim C3 -/

/-- C3 (amended): for a name with no map entry (never begun, not merely
already ended), `Stop` panics with the nil dereference at `anchor.latest`
— the `UnmatchedEnd` condition surfaced to the caller as a runtime panic —
and the state, in particular every anchor's recorded data, is returned
exactly as it was. -/
theorem c3_unmatched_end_never_begun (s : ProfState) (name : String) (t : Int)
    (henv : s.envTimer ≠ "0")
    (hlk : lookupName s.anchorsByName (truncateName name) = none) :
    stop s name t = (s, some GoPanic.nilDereference) := by
  unfold stop
  rw [if_neg henv]
  dsimp only
  rw [hlk]

/-- Witness for C3 (amended): `End("missing")` with no prior `Begin`
panics and leaves the initial state untouched. -/
theorem c3_unmatched_end_never_begun_witness :
    (initialState "1").envTimer ≠ "0" ∧
    lookupName (initialState "1").anchorsByName (truncateName "missing") = none ∧
    stop (initialState "1") "missing" 3 = (initialState "1", some GoPanic.nilDereference) :=
  ⟨by decide, rfl,
    c3_unmatched_end_never_begun (initialState "1") "missing" 3 (by decide) rfl⟩

/-- C3 counterexample: the claim as stated also covers names whose open
`Begin` has already ended.  After `Begin("a"); End("a")` the anchor's
`exclusiveCycles` is `5`; a second `End("a")` does not raise any error
(no panic) and silently changes the recorded data to `14` — it re-adds
the whole interval since the stale frame's start. -/
theorem c3_counterexample_second_end_silently_mutates :
    (run (initialState "1") [Op.start "a" 0 3000 100, Op.stop "a" 105, Op.stop "a" 109]).2.2 =
      none ∧
    ((run (initialState "1") [Op.start "a" 0 3000 100, Op.stop "a" 105]).1.anchorHeap 1).tscount
      = 5 ∧
    ((run (initialState "1")
      [Op.start "a" 0 3000 100, Op.stop "a" 105, Op.stop "a" 109]).1.anchorHeap 1).tscount
      = 14 :=
  ⟨rfl, rfl, rfl⟩

/-! ## Claim C6 -/

/-- C6: with the `TIMER` switch set to `"0"`, every sequence of
`Begin`/`BeginWithThroughput`/`End`/`Report` calls is a no-op: the final
state is exactly the starting state, no output is produced, and no panic
occurs.  (`Reset` is not gated by the switch and is not part of the
claim's operation set.) -/
theorem c6_disabled_noop (s : ProfState) (ops : List Op) (henv : s.envTimer = "0")
    (hnr : Op.reset ∉ ops) :
    run s ops = (s, [], none) := by
  induction ops with
  | nil => rfl
  | cons op rest ih =>
    have hop : stepOp s op = (s, [], none) := by
      cases op with
      | start n b c now =>
        simp [stepOp, startThroughput_disabled s n b c now henv]
      | stop n now =>
        simp [stepOp, stop_disabled s n now henv]
      | output =>
        simp [stepOp, output_disabled s henv]
      | reset => exact absurd (List.mem_cons_self _ _) hnr
    have hnr' : Op.reset ∉ rest := fun h => hnr (List.mem_cons_of_mem _ h)
    unfold run
    rw [hop]
    dsimp only
    rw [ih hnr']
    rfl

/-- Witness for C6 at a concrete disabled state and call sequence. -/
theorem c6_disabled_noop_witness :
    (initialState "0").envTimer = "0" ∧
    Op.reset ∉ [Op.start "a" 0 3000 100, Op.stop "a" 105, Op.output] ∧
    run (initialState "0") [Op.start "a" 0 3000 100, Op.stop "a" 105, Op.output] =
      (initialState "0", [], none) :=
  ⟨rfl, by decide,
    c6_disabled_noop (initialState "0") _ rfl (by decide)⟩

/-! ## Claim C9 -/

/-- C9: `Reset()` restores the Anchor Table (array, insertion index, name
map), the Call Chain (current frame), and the Session state (current
anchor, total anchor, total frame) to their initial empty values, while
leaving `cpuFrequency` untouched; consequently a `Begin` issued after the
reset does not recalibrate — its result does not depend on the calibration
input at all and keeps the cached frequency. -/
theorem c9_reset_clears_state_keeps_calibration (s : ProfState) :
    (resetState s).index = 0 ∧
    (resetState s).anchors = List.replicate maxHandledAnchors none ∧
    (resetState s).anchorsByName = [] ∧
    (resetState s).currentAnchor = none ∧
    (resetState s).currentTiming = none ∧
    (resetState s).timingHeap (resetState s).totalTimingId = Timing.zero ∧
    (resetState s).anchorHeap (resetState s).totalAnchorId =
      { Anchor.zero with name := TOTAL_ANCHOR_NAME } ∧
    (resetState s).cpuFrequency = s.cpuFrequency ∧
    (∀ n b c1 c2 now, s.cpuFrequency ≠ 0 →
      startThroughput (resetState s) n b c1 now = startThroughput (resetState s) n b c2 now ∧
      (startThroughput (resetState s) n b c1 now).1.cpuFrequency = s.cpuFrequency) := by
  refine ⟨rfl, rfl, rfl, rfl, rfl, by simp [resetState], by simp [resetState], rfl, ?_⟩
  intro n b c1 c2 now h
  have hf : (resetState s).cpuFrequency = s.cpuFrequency := rfl
  constructor
  · unfold startThroughput
    rw [calibrate_of_ne _ c1 (by rw [hf]; exact h), calibrate_of_ne _ c2 (by rw [hf]; exact h)]
  · rw [startThroughput_cpuFrequency_pres _ n b c1 now (by rw [hf]; exact h)]
    exact hf

/-- Witness for C9 at a calibrated concrete state. -/
theorem c9_reset_witness :
    ({ initialState "1" with cpuFrequency := 7 } : ProfState).cpuFrequency ≠ 0 ∧
    (resetState { initialState "1" with cpuFrequency := 7 }).cpuFrequency = 7 ∧
    startThroughput (resetState { initialState "1" with cpuFrequency := 7 }) "a" 0 11 100 =
      startThroughput (resetState { initialState "1" with cpuFrequency := 7 }) "a" 0 22 100 ∧
    (startThroughput (resetState { initialState "1" with cpuFrequency := 7 })
      "a" 0 11 100).1.cpuFrequency = 7 := by
  have h := c9_reset_clears_state_keeps_calibration { initialState "1" with cpuFrequency := 7 }
  have h9 := h.2.2.2.2.2.2.2.2 "a" 0 11 22 100 (by decide)
  exact ⟨by decide, h.2.2.2.2.2.2.2.1, h9.1, h9.2⟩

/-! ## Claim C4 -/

/-- C4: with the table already holding its maximum number of distinct
names (the effective capacity `maxHandledAnchors - 1 = 999`, slot 0 being
unused), a `Begin` with a new distinct name fails loudly — the store at
`anchors[index]` is the out-of-range panic that realizes the spec's
`AnchorCapacityExceeded` — and the `anchors` array and every previously
allocated anchor record (name, hits, depth, exclusiveCycles, bytes) are
left exactly as they were. -/
theorem c4_capacity_exceeded_panics_no_corruption (s : ProfState) (n : String)
    (b c now : Int)
    (henv : s.envTimer ≠ "0")
    (hfull : s.anchorsByName.length = maxHandledAnchors - 1)
    (hidx : s.index = s.anchorsByName.length)
    (hlen : s.anchors.length = maxHandledAnchors)
    (hnew : lookupName s.anchorsByName (truncateName n) = none) :
    (startThroughput s n b c now).2 = some GoPanic.indexOutOfRange ∧
    (startThroughput s n b c now).1.anchors = s.anchors ∧
    (∀ j, j < s.anchorCount → (startThroughput s n b c now).1.anchorHeap j = s.anchorHeap j) := by
  have hcap : ¬ s.index + 1 < s.anchors.length := by
    rw [hidx, hfull, hlen]
    simp [maxHandledAnchors]
  rw [startThroughput_new_panic s n b c now henv hnew hcap]
  rw [createAnchor_panic (calibrate s c) (truncateName n) (by simpa using hcap)]
  refine ⟨rfl, by simp, ?_⟩
  intro j hj
  dsimp only
  rw [upd_of_ne]
  · rw [calibrate_anchorHeap]
  · rw [calibrate_anchorCount]
    exact Nat.ne_of_lt hj

/-- A state whose Anchor Table is at its effective capacity of 999
recorded names (used to witness C4). -/
def c4FullState : ProfState :=
  { initialState "1" with
    index := maxHandledAnchors - 1
    anchorsByName := List.replicate (maxHandledAnchors - 1) ("a", 1) }

/-- Witness for C4: at the full table, `Begin("b")` panics and the table
array is unchanged. -/
theorem c4_capacity_witness :
    c4FullState.envTimer ≠ "0" ∧
    c4FullState.anchorsByName.length = maxHandledAnchors - 1 ∧
    c4FullState.index = c4FullState.anchorsByName.length ∧
    c4FullState.anchors.length = maxHandledAnchors ∧
    lookupName c4FullState.anchorsByName (truncateName "b") = none ∧
    (startThroughput c4FullState "b" 0 5 100).2 = some GoPanic.indexOutOfRange ∧
    (startThroughput c4FullState "b" 0 5 100).1.anchors = c4FullState.anchors := by
  have h := c4_capacity_exceeded_panics_no_corruption c4FullState "b" 0 5 100
    (by decide) (by rfl) (by rfl) (by rfl) (by rfl)
  exact ⟨by decide, rfl, rfl, rfl, rfl, h.1, h.2.1⟩

/-! ## Claim C5 -/

/-- C5: an anchor's `depth` is written only at first discovery.  Neither a
`Begin` (of a known or a new name) nor an `End` changes the depth of any
already-allocated anchor, and a successfully created anchor gets depth
`parent.depth + 1` under a current anchor and `0` at top level. -/
theorem c5_depth_fixed_at_discovery (s : ProfState) (n m : String) (b c now t : Int)
    (hcur : ∀ cid, s.currentAnchor = some cid → cid < s.anchorCount) :
    (∀ j, j < s.anchorCount →
      ((startThroughput s n b c now).1.anchorHeap j).depth = (s.anchorHeap j).depth) ∧
    (∀ j, ((stop s m t).1.anchorHeap j).depth = (s.anchorHeap j).depth) ∧
    (s.envTimer ≠ "0" → lookupName s.anchorsByName (truncateName n) = none →
      s.index + 1 < s.anchors.length →
      ((startThroughput s n b c now).1.anchorHeap s.anchorCount).depth =
        (match s.currentAnchor with
          | some cid => (s.anchorHeap cid).depth + 1
          | none => 0)) := by
  refine ⟨?_, ?_, ?_⟩
  · intro j hj
    by_cases henv : s.envTimer = "0"
    · rw [startThroughput_disabled s n b c now henv]
    · rcases hlk : lookupName s.anchorsByName (truncateName n) with _ | aid
      · by_cases hcap : s.index + 1 < s.anchors.length
        · rw [startThroughput_new_ok s n b c now henv hlk hcap]
          rw [(startCont_pres_depth_name_parent _ s.anchorCount b now j).1]
          have hne : j ≠ (calibrate s c).anchorCount := by
            rw [calibrate_anchorCount]; exact Nat.ne_of_lt hj
          rw [(createAnchor_ok (calibrate s c) (truncateName n)
            (by simpa using hcap)).2.2.2.2.2.2.2.2.2.2.2.2.2.1 j hne]
          rw [calibrate_anchorHeap]
        · rw [startThroughput_new_panic s n b c now henv hlk hcap]
          rw [createAnchor_panic (calibrate s c) (truncateName n) (by simpa using hcap)]
          dsimp only
          rw [upd_of_ne _ _ (by rw [calibrate_anchorCount]; exact Nat.ne_of_lt hj)]
          rw [calibrate_anchorHeap]
      · rw [startThroughput_existing s n b c now aid henv hlk]
        rw [(startCont_pres_depth_name_parent _ aid b now j).1, calibrate_anchorHeap]
  · intro j
    exact (stop_anchorFields s m t j).1
  · intro henv hlk hcap
    rw [startThroughput_new_ok s n b c now henv hlk hcap]
    rw [(startCont_pres_depth_name_parent _ s.anchorCount b now s.anchorCount).1]
    rcases hca : s.currentAnchor with _ | cid
    · rw [show s.anchorCount = (calibrate s c).anchorCount from (calibrate_anchorCount s c).symm]
      rw [createAnchor_depth_root (calibrate s c) (truncateName n)
        (by simpa using hcap) (by rw [calibrate_currentAnchor]; exact hca)]
    · have hcid : cid ≠ (calibrate s c).anchorCount := by
        rw [calibrate_anchorCount]
        exact Nat.ne_of_lt (hcur cid hca)
      rw [show s.anchorCount = (calibrate s c).anchorCount from (calibrate_anchorCount s c).symm]
      rw [createAnchor_depth_child (calibrate s c) (truncateName n) cid
        (by simpa using hcap) (by rw [calibrate_currentAnchor]; exact hca) hcid]
      rw [calibrate_anchorHeap]

/-- A state with one open anchor `p` at depth 0 (used to witness C5). -/
def c5OpenState : ProfState := (run (initialState "1") [Op.start "p" 0 3000 100]).1

/-- Witness for C5: beginning a new name `q` under the open anchor `p`
gives `q` depth `p.depth + 1`, and beginning it changes no existing
anchor's depth. -/
theorem c5_depth_witness :
    (∀ cid, c5OpenState.currentAnchor = some cid → cid < c5OpenState.anchorCount) ∧
    ((startThroughput c5OpenState "q" 0 3000 110).1.anchorHeap
        c5OpenState.anchorCount).depth =
      (match c5OpenState.currentAnchor with
        | some cid => (c5OpenState.anchorHeap cid).depth + 1
        | none => 0) ∧
    ((startThroughput c5OpenState "q" 0 3000 110).1.anchorHeap 1).depth =
      (c5OpenState.anchorHeap 1).depth := by
  have hcur : ∀ cid, c5OpenState.currentAnchor = some cid → cid < c5OpenState.anchorCount := by
    intro cid h
    rw [show c5OpenState.currentAnchor = some 1 from rfl] at h
    injection h with h'
    rw [← h']
    decide
  have h := c5_depth_fixed_at_discovery c5OpenState "q" "p" 0 3000 110 115 hcur
  exact ⟨hcur, h.2.2 (by decide) rfl (by decide), h.1 1 (by decide)⟩

/-! ## Claim C7 -/

/-- The percentage fields of the per-anchor lines of a report, in order. -/
def reportPercents : List OutLine → List GoFloat
  | [] => []
  | OutLine.entry _ _ _ p _ :: rest => p :: reportPercents rest
  | OutLine.entryThroughput _ _ _ p _ _ _ :: rest => p :: reportPercents rest
  | OutLine.blank :: rest => reportPercents rest
  | OutLine.header _ _ _ _ :: rest => reportPercents rest

theorem goDivInt_zero_not_finite (x : Int) (q : ℚ) : goDivInt x 0 ≠ GoFloat.finite q := by
  unfold goDivInt
  simp only [ne_eq, not_true_eq_false, ite_false]
  split
  · simp
  · split <;> simp

theorem reportPercents_outputLoop_zero (s : ProfState)
    (h0 : (s.anchorHeap s.totalAnchorId).tscount = 0) :
    ∀ l : List (Option Nat), ∀ p ∈ reportPercents (outputLoop s l),
      ∀ q : ℚ, p ≠ GoFloat.finite q := by
  intro l
  induction l with
  | nil => intro p hp; simp [outputLoop, reportPercents] at hp
  | cons hd rest ih =>
    intro p hp q
    cases hd with
    | none => simp [outputLoop, reportPercents] at hp
    | some aid =>
      rw [outputLoop] at hp
      unfold entryLine at hp
      rw [h0] at hp
      dsimp only at hp
      split at hp
      · rw [reportPercents] at hp
        rcases List.mem_cons.mp hp with h | h
        · rw [h]; exact goDivInt_zero_not_finite _ q
        · exact ih p h q
      · rw [reportPercents] at hp
        rcases List.mem_cons.mp hp with h | h
        · rw [h]; exact goDivInt_zero_not_finite _ q
        · exact ih p h q

/-- C7 (amended): when the total anchor's `exclusiveCycles` is zero,
`Report` completes normally (returning the state unchanged — the Go float
division by zero does not trap), but each entry's percentage is an IEEE
special value (`+Inf`, `-Inf`, or `NaN`), printed as such: no placeholder
and no `0%` is produced. -/
theorem c7_zero_total_percentages_not_finite (s : ProfState)
    (h0 : (s.anchorHeap s.totalAnchorId).tscount = 0) :
    (output s).1 = s ∧
    ∀ p ∈ reportPercents (output s).2, ∀ q : ℚ, p ≠ GoFloat.finite q := by
  constructor
  · unfold output
    dsimp only
    split <;> rfl
  · intro p hp q
    unfold output at hp
    dsimp only at hp
    split at hp
    · simp [reportPercents] at hp
    · rw [reportPercents, reportPercents] at hp
      unfold outputEntries at hp
      rcases hl : s.anchors with _ | ⟨hd, rest⟩
      · rw [hl] at hp
        simp [reportPercents] at hp
      · rw [hl] at hp
        exact reportPercents_outputLoop_zero s h0 rest p hp q

/-- A state with a zero total span and one anchor with 10 accumulated
cycles (used for C7's counterexample and witness). -/
def c7ZeroTotalState : ProfState :=
  { initialState "1" with
    index := 1
    anchors := (List.replicate maxHandledAnchors (none : Option Nat)).set 1 (some 1)
    anchorsByName := [("a", 1)]
    anchorCount := 2
    anchorHeap := upd (initialState "1").anchorHeap 1
      { Anchor.zero with name := "a", hits := 1, tscount := 10 } }

/-- C7 counterexample: with a zero total, the report's only percentage is
`+Inf` — not a placeholder and not `0%` — so the claim's "placeholder or
0%" fails as stated. -/
theorem c7_counterexample_percent_is_inf :
    (c7ZeroTotalState.anchorHeap c7ZeroTotalState.totalAnchorId).tscount = 0 ∧
    reportPercents (output c7ZeroTotalState).2 = [GoFloat.posInf] ∧
    GoFloat.posInf ≠ GoFloat.finite 0 :=
  ⟨rfl, rfl, by decide⟩

/-- Witness for C7 (amended) at the concrete zero-total state. -/
theorem c7_zero_total_witness :
    (c7ZeroTotalState.anchorHeap c7ZeroTotalState.totalAnchorId).tscount = 0 ∧
    (output c7ZeroTotalState).1 = c7ZeroTotalState ∧
    ∀ p ∈ reportPercents (output c7ZeroTotalState).2, ∀ q : ℚ, p ≠ GoFloat.finite q := by
  have h := c7_zero_total_percentages_not_finite c7ZeroTotalState rfl
  exact ⟨rfl, h.1, h.2⟩

/-! ## Claim C1 -/

/-- C1: evaluation of the recursion scenario
`Begin("f") @100; Begin("f") @110; End("f") @120; End("f") @130` on the
code.  The anchor's final `exclusiveCycles` is `40 = (120-100)+(130-110)`:
the nested span `[110,120]` is charged once by the inner `End` and again
inside the outer `End`'s `end - latest.start` slice (the outer `End` still
reads the inner invocation's frame through `latest`), so `exclusiveCycles`
exceeds even the whole outer span `30` recorded by the total anchor, and
the claimed no-double-count accounting is violated by the code. -/
theorem c1_recursion_double_counts :
    (run (initialState "1")
      [Op.start "f" 0 3000 100, Op.start "f" 0 3000 110,
        Op.stop "f" 120, Op.stop "f" 130]).2.2 = none ∧
    lookupName (run (initialState "1")
      [Op.start "f" 0 3000 100, Op.start "f" 0 3000 110,
        Op.stop "f" 120, Op.stop "f" 130]).1.anchorsByName "f" = some 1 ∧
    ((run (initialState "1")
      [Op.start "f" 0 3000 100, Op.start "f" 0 3000 110,
        Op.stop "f" 120, Op.stop "f" 130]).1.anchorHeap 1).tscount = 40 ∧
    ((run (initialState "1")
      [Op.start "f" 0 3000 100, Op.start "f" 0 3000 110,
        Op.stop "f" 120, Op.stop "f" 130]).1.anchorHeap
      (run (initialState "1")
        [Op.start "f" 0 3000 100, Op.start "f" 0 3000 110,
          Op.stop "f" 120, Op.stop "f" 130]).1.totalAnchorId).tscount = 30 ∧
    (30 : Int) < 40 :=
  ⟨rfl, rfl, rfl, rfl, by decide⟩

/-! ## Claim C2 (counterexample) -/

/-- C2 counterexample: after the balanced recursive sequence
`Begin("f"); Begin("f"); End("f"); End("f")` (zero unmatched `Begin`s),
the chain `currentTiming -> previous -> ...` still holds one frame — the
outer `End` pops via `anchor.latest.previous`, which after recursive
re-entry points back at the outer frame instead of past it — so the
claimed length and content correspondence fails on recursive traces. -/
theorem c2_counterexample_recursive_chain_not_empty :
    (run (initialState "1")
      [Op.start "f" 0 3000 100, Op.start "f" 0 3000 110,
        Op.stop "f" 120, Op.stop "f" 130]).2.2 = none ∧
    beginCount [Op.start "f" 0 3000 100, Op.start "f" 0 3000 110,
        Op.stop "f" 120, Op.stop "f" 130] =
      endCount [Op.start "f" 0 3000 100, Op.start "f" 0 3000 110,
        Op.stop "f" 120, Op.stop "f" 130] ∧
    chainNames (run (initialState "1")
      [Op.start "f" 0 3000 100, Op.start "f" 0 3000 110,
        Op.stop "f" 120, Op.stop "f" 130]).1 = ["f"] :=
  ⟨rfl, rfl, rfl⟩

/-! ## Claim C10 -/

theorem tableInv_transport {s s' : ProfState} (hmap : s'.anchorsByName = s.anchorsByName)
    (hidx : s'.index = s.index) (harr : s'.anchors = s.anchors) (h : TableInv s) :
    TableInv s' :=
  ⟨by rw [hmap]; exact h.size,
    by rw [hidx, hmap]; exact h.idx,
    by rw [harr, hmap]; exact h.arr⟩

theorem tableInv_of_skel {s s' : ProfState} (hsk : SkelEq s s') (h : TableInv s) :
    TableInv s' :=
  tableInv_transport hsk.map hsk.idx hsk.arr h

theorem tableInv_initial (env : String) : TableInv (initialState env) := by
  refine ⟨by simp [initialState, maxHandledAnchors], rfl, ?_⟩
  show List.replicate maxHandledAnchors none =
    none :: ([] ++ List.replicate (maxHandledAnchors - 1 - 0) none)
  rfl

theorem set_append_length {α : Type} (xs ys : List α) (v : α) :
    (xs ++ ys).set xs.length v = xs ++ ys.set 0 v := by
  induction xs with
  | nil => simp
  | cons a as ih => simp [List.set_cons_succ, ih]

theorem replicate_set_zero {α : Type} (k : Nat) (hk : 0 < k) (w v : α) :
    (List.replicate k w).set 0 v = v :: List.replicate (k - 1) w := by
  cases k with
  | zero => exact absurd hk (by simp)
  | succ j => simp [List.replicate_succ]

theorem anchors_set_new (xs : List (Option Nat)) (k : Nat) (hk : 0 < k) (v : Option Nat) :
    (none :: (xs ++ List.replicate k (none : Option Nat))).set (xs.length + 1) v =
      none :: ((xs ++ [v]) ++ List.replicate (k - 1) none) := by
  rw [List.set_cons_succ, set_append_length, replicate_set_zero k hk]
  simp

theorem tableInv_createAnchor (s : ProfState) (nm : String) (h : TableInv s)
    (hcap : s.index + 1 < s.anchors.length) :
    TableInv (createAnchor s nm).1 := by
  obtain ⟨-, henv, hcpu, hidx, harr, hmap, -, -, -, -, -, -, -, -, -, -, -, -, -, -, -⟩ :=
    createAnchor_ok s nm hcap
  have hsize : s.anchorsByName.length + 1 ≤ maxHandledAnchors - 1 := by
    have hlen : s.anchors.length = maxHandledAnchors := by
      rw [h.arr]
      simp only [List.length_cons, List.length_append, List.length_map,
        List.length_replicate]
      have := h.size
      simp [maxHandledAnchors] at this ⊢
      omega
    rw [h.idx, hlen] at hcap
    simp [maxHandledAnchors] at hcap ⊢
    omega
  refine ⟨?_, ?_, ?_⟩
  · rw [hmap]
    simpa using hsize
  · rw [hidx, hmap, h.idx]
    simp
  · rw [harr, hmap, h.arr, h.idx]
    have hlenmap : (s.anchorsByName.map (fun kv => some kv.2)).length =
        s.anchorsByName.length := by simp
    have hk : 0 < maxHandledAnchors - 1 -
        (s.anchorsByName.map (fun kv => some kv.2)).length := by
      rw [hlenmap]
      simp [maxHandledAnchors] at hsize ⊢
      omega
    rw [show s.anchorsByName.length =
      (s.anchorsByName.map (fun kv => some kv.2)).length from hlenmap.symm]
    rw [anchors_set_new _ _ hk]
    simp only [List.map_append, List.map_cons, List.map_nil, List.length_append,
      List.length_map, List.length_cons, List.length_nil]
    congr 2

theorem tableInv_reset (s : ProfState) : TableInv (resetState s) := by
  refine ⟨by simp [resetState, maxHandledAnchors], rfl, ?_⟩
  show List.replicate maxHandledAnchors none =
    none :: ([] ++ List.replicate (maxHandledAnchors - 1 - 0) none)
  rfl

theorem tableInv_step (s : ProfState) (op : Op) (h : TableInv s)
    (hp : (stepOp s op).2.2 = none) : TableInv (stepOp s op).1 := by
  cases op with
  | start n b c now =>
    by_cases henv : s.envTimer = "0"
    · simp [stepOp, startThroughput_disabled s n b c now henv]
      exact h
    · rcases hlk : lookupName s.anchorsByName (truncateName n) with _ | aid
      · by_cases hcap : s.index + 1 < s.anchors.length
        · have hcal : TableInv (calibrate s c) :=
            tableInv_transport (calibrate_anchorsByName s c) (calibrate_index s c)
              (calibrate_anchors s c) h
          simp only [stepOp, startThroughput_new_ok s n b c now henv hlk hcap]
          exact tableInv_of_skel (startCont_skel _ s.anchorCount b now).1
            (tableInv_createAnchor (calibrate s c) (truncateName n) hcal (by simpa using hcap))
        · exfalso
          simp [stepOp, startThroughput_new_panic s n b c now henv hlk hcap] at hp
      · simp only [stepOp, startThroughput_existing s n b c now aid henv hlk]
        have hcal : TableInv (calibrate s c) :=
          tableInv_transport (calibrate_anchorsByName s c) (calibrate_index s c)
            (calibrate_anchors s c) h
        exact tableInv_of_skel (startCont_skel _ aid b now).1 hcal
  | stop n now =>
    simp only [stepOp]
    exact tableInv_of_skel (stop_skel s n now).1 h
  | output =>
    simp only [stepOp]
    have : (output s).1 = s := by
      unfold output
      dsimp only
      split <;> rfl
    rw [this]
    exact h
  | reset => exact tableInv_reset s

theorem tableInv_run (ops : List Op) : ∀ s : ProfState, TableInv s →
    (run s ops).2.2 = none → TableInv (run s ops).1 := by
  induction ops with
  | nil => intro s h _; exact h
  | cons op rest ih =>
    intro s h hnp
    rcases hE : stepOp s op with ⟨s1, o, p⟩
    cases p with
    | none =>
      have h1 : TableInv s1 := by
        have := tableInv_step s op h (by rw [hE])
        rw [hE] at this
        exact this
      unfold run at hnp ⊢
      rw [hE] at hnp ⊢
      dsimp only at hnp ⊢
      exact ih s1 h1 hnp
    | some q =>
      exfalso
      unfold run at hnp
      rw [hE] at hnp
      dsimp only at hnp
      exact Option.noConfusion hnp

theorem outputLoop_map_entries (s : ProfState) (ids : List Nat) (k : Nat) :
    outputLoop s (ids.map (fun i => some i) ++ List.replicate k (none : Option Nat)) =
      ids.map (fun i => entryLine s i) := by
  induction ids with
  | nil =>
    cases k with
    | zero => simp [outputLoop]
    | succ j => simp [List.replicate_succ, outputLoop]
  | cons i rest ih => simp [outputLoop, ih]

theorem outputEntries_of_tableInv (s : ProfState) (h : TableInv s) :
    outputEntries s = s.anchorsByName.map (fun kv => entryLine s kv.2) := by
  unfold outputEntries
  rw [h.arr]
  dsimp only
  have hmm : s.anchorsByName.map (fun kv => some kv.2) =
      (s.anchorsByName.map Prod.snd).map (fun i => some i) := by
    rw [List.map_map]
    rfl
  rw [hmm, outputLoop_map_entries s (s.anchorsByName.map Prod.snd)
    (maxHandledAnchors - 1 - s.anchorsByName.length)]
  rw [List.map_map]
  rfl

/-- C10: after every non-panicking run from the initial state, slot 0 of
the `anchors` array is still nil (the insertion index is incremented
before each store, so the `n`-th distinct name occupies slot `n`), the
index equals the number of registered names, at most
`maxHandledAnchors - 1` names are registered (the effective capacity is
one less than the declared size), and the report loop — which skips slot 0
and breaks at the first nil slot — yields exactly one line per registered
anchor in insertion order. -/
theorem c10_table_shape_and_report_order (env : String) (ops : List Op)
    (hnp : (run (initialState env) ops).2.2 = none) :
    TableInv (run (initialState env) ops).1 ∧
    outputEntries (run (initialState env) ops).1 =
      ((run (initialState env) ops).1.anchorsByName).map
        (fun kv => entryLine (run (initialState env) ops).1 kv.2) := by
  have h := tableInv_run ops (initialState env) (tableInv_initial env) hnp
  exact ⟨h, outputEntries_of_tableInv _ h⟩

/-- Witness for C10 on a concrete two-anchor trace. -/
theorem c10_table_shape_witness :
    (run (initialState "1")
      [Op.start "a" 0 3000 100, Op.start "b" 7 3000 110,
        Op.stop "b" 120, Op.stop "a" 130]).2.2 = none ∧
    (TableInv (run (initialState "1")
      [Op.start "a" 0 3000 100, Op.start "b" 7 3000 110,
        Op.stop "b" 120, Op.stop "a" 130]).1 ∧
     outputEntries (run (initialState "1")
      [Op.start "a" 0 3000 100, Op.start "b" 7 3000 110,
        Op.stop "b" 120, Op.stop "a" 130]).1 =
      ((run (initialState "1")
        [Op.start "a" 0 3000 100, Op.start "b" 7 3000 110,
          Op.stop "b" 120, Op.stop "a" 130]).1.anchorsByName).map
        (fun kv => entryLine (run (initialState "1")
          [Op.start "a" 0 3000 100, Op.start "b" 7 3000 110,
            Op.stop "b" 120, Op.stop "a" 130]).1 kv.2)) :=
  ⟨rfl, c10_table_shape_and_report_order "1"
    [Op.start "a" 0 3000 100, Op.start "b" 7 3000 110,
      Op.stop "b" 120, Op.stop "a" 130] rfl⟩

/-! ## Claim C2: machinery -/

/-- `ChainOk` is stable under state changes that preserve the chain's
timing cells (their links), the lookups of the stacked names, and those
anchors' `latest` references, with a possibly larger allocation counter. -/
theorem chainOk_mono (s s' : ProfState) (htc : s.timingCount ≤ s'.timingCount)
    (htt : s'.totalTimingId = s.totalTimingId) :
    ∀ (stk : List String) (o : Option Nat),
      ChainOk s o stk →
      (∀ t, t < s.timingCount → t ≠ s.totalTimingId →
        (s'.timingHeap t).previous = (s.timingHeap t).previous ∧
        (s'.timingHeap t).anchor = (s.timingHeap t).anchor) →
      (∀ nm aid, nm ∈ stk → lookupName s.anchorsByName nm = some aid →
        lookupName s'.anchorsByName nm = some aid ∧
        (s'.anchorHeap aid).latest = (s.anchorHeap aid).latest) →
      ChainOk s' o stk := by
  intro stk
  induction stk with
  | nil =>
    intro o hco _ _
    cases o with
    | none => exact trivial
    | some t => exact hco.elim
  | cons nm rest ih =>
    intro o hco hT hL
    cases o with
    | none => exact hco.elim
    | some t =>
      obtain ⟨h1, h2, ⟨aid, ha1, ha2, ha3⟩, h4, h5⟩ := hco
      have hTt := hT t h1 h2
      refine ⟨Nat.lt_of_lt_of_le h1 htc, by rw [htt]; exact h2,
        ⟨aid, hTt.2.trans ha1, (hL nm aid (List.mem_cons_self _ _) ha2).1,
          (hL nm aid (List.mem_cons_self _ _) ha2).2.trans ha3⟩, ?_, ?_⟩
      · intro u hu
        rw [hTt.1] at hu
        exact h4 u hu
      · rw [hTt.1]
        exact ih _ h5 hT (fun nm2 aid2 hmem => hL nm2 aid2 (List.mem_cons_of_mem _ hmem))

/-- Effect of the final charge-and-assign tail of `startCont` on the
fields the chain invariant reads: the charge only rewrites `active` and
`tscount` of one anchor, so timing cells, `latest` fields and
`currentAnchor` pass through, and `currentTiming` becomes the new
frame. -/
theorem charge_tail_fields (Y : ProfState) (tid : Nat) (now : Int)
    (hch : Y.currentTiming = none ∨
      ∃ ct ca, Y.currentTiming = some ct ∧ (Y.timingHeap ct).anchor = some ca) :
    (pseq (chargeInterrupted Y now)
      (fun s6 => ({ s6 with currentTiming := some tid }, none))).2 = none ∧
    (pseq (chargeInterrupted Y now)
      (fun s6 => ({ s6 with currentTiming := some tid }, none))).1.currentTiming = some tid ∧
    (pseq (chargeInterrupted Y now)
      (fun s6 => ({ s6 with currentTiming := some tid }, none))).1.currentAnchor =
      Y.currentAnchor ∧
    (pseq (chargeInterrupted Y now)
      (fun s6 => ({ s6 with currentTiming := some tid }, none))).1.timingHeap =
      Y.timingHeap ∧
    (∀ j, ((pseq (chargeInterrupted Y now)
      (fun s6 => ({ s6 with currentTiming := some tid }, none))).1.anchorHeap j).latest =
      (Y.anchorHeap j).latest) := by
  rcases hch with hch | ⟨ct, ca, hct, hca⟩
  · rw [chargeInterrupted_of_none Y now hch]
    unfold pseq
    exact ⟨rfl, rfl, rfl, rfl, fun j => rfl⟩
  · rw [chargeInterrupted_of_some Y now ct ca hct hca]
    unfold pseq
    dsimp only
    refine ⟨rfl, rfl, rfl, rfl, fun j => ?_⟩
    exact setAnchorF_pres_field (fun a => a.latest) Y ca
      (fun a => { a with active := false,
                         tscount := a.tscount + now - (Y.timingHeap ct).start })
      (fun a => rfl) j

/-- The fields of `startCont`'s result that the chain invariant depends
on, under side conditions that hold in every reachable state: the begun
anchor is not the synthetic total anchor, the synthetic total frame id is
below the allocation counter, and the interrupted frame (when present) is
a valid, owned, non-synthetic cell. -/
theorem startCont_chain_fields (s : ProfState) (aid : Nat) (b now : Int)
    (haid : aid ≠ s.totalAnchorId)
    (htt : s.totalTimingId < s.timingCount)
    (hct : s.currentTiming = none ∨
      ∃ ct ca, s.currentTiming = some ct ∧ (s.timingHeap ct).anchor = some ca ∧
        ct < s.timingCount ∧ ct ≠ s.totalTimingId) :
    (startCont s aid b now).2 = none ∧
    (startCont s aid b now).1.currentTiming = some s.timingCount ∧
    (startCont s aid b now).1.currentAnchor = some aid ∧
    ((startCont s aid b now).1.timingHeap s.timingCount).previous = s.currentTiming ∧
    ((startCont s aid b now).1.timingHeap s.timingCount).anchor = some aid ∧
    ((startCont s aid b now).1.anchorHeap aid).latest = some s.timingCount ∧
    (∀ j, j < s.timingCount → j ≠ s.totalTimingId →
      ((startCont s aid b now).1.timingHeap j).previous = (s.timingHeap j).previous ∧
      ((startCont s aid b now).1.timingHeap j).anchor = (s.timingHeap j).anchor) ∧
    (∀ j, j ≠ aid → j ≠ s.totalAnchorId →
      ((startCont s aid b now).1.anchorHeap j).latest = (s.anchorHeap j).latest) ∧
    (∀ j, ((startCont s aid b now).1.anchorHeap j).latest = none →
      ((s.anchorHeap j).latest = none ∧ j ≠ aid)) := by
  have htne : s.totalTimingId ≠ s.timingCount := Nat.ne_of_lt htt
  have harm : ∀ j, j < s.timingCount → j ≠ s.totalTimingId →
      (armTotal (startFrame s aid b now) now).timingHeap j = s.timingHeap j := by
    intro j hj1 hj2
    rw [armTotal_timingHeap_ne _ now (by simpa using hj2)]
    exact startFrame_timingHeap_ne s aid b now (Nat.ne_of_lt hj1)
  have hch : (armTotal (startFrame s aid b now) now).currentTiming = none ∨
      ∃ ct ca, (armTotal (startFrame s aid b now) now).currentTiming = some ct ∧
        ((armTotal (startFrame s aid b now) now).timingHeap ct).anchor = some ca := by
    rcases hct with hc | ⟨ct, ca, hc, hca2, hclt, hcne⟩
    · exact Or.inl (by simp [hc])
    · exact Or.inr ⟨ct, ca, by simp [hc], by rw [harm ct hclt hcne]; exact hca2⟩
  obtain ⟨hP1, hP2, hP3, hP4, hP5⟩ :=
    charge_tail_fields (armTotal (startFrame s aid b now) now) s.timingCount now hch
  unfold startCont
  dsimp only
  refine ⟨hP1, hP2, ?_, ?_, ?_, ?_, ?_, ?_, ?_⟩
  · rw [hP3]
    simp
  · rw [hP4, armTotal_timingHeap_ne _ now (by simpa using Ne.symm htne)]
    rw [startFrame_timingHeap_new]
  · rw [hP4, armTotal_timingHeap_ne _ now (by simpa using Ne.symm htne)]
    rw [startFrame_timingHeap_new]
  · rw [hP5 aid, armTotal_anchorHeap_ne _ now (by simpa using haid)]
    simp
  · intro j hj1 hj2
    rw [hP4, harm j hj1 hj2]
    exact ⟨rfl, rfl⟩
  · intro j hj1 hj2
    rw [hP5 j, armTotal_anchorHeap_ne _ now (by simpa using hj2),
      startFrame_anchorHeap_ne s aid b now hj1]
  · intro j hlat
    rw [hP5 j] at hlat
    exact startFrame_latest_none s aid b now j (armTotal_latest_none _ now j hlat)

theorem stopResumePrev_of_none (s : ProfState) (endv : Int) :
    stopResumePrev s none endv = (s, none) := rfl

theorem stopResumePrev_of_some (s : ProfState) (endv : Int) (pt pa : Nat)
    (hpa : (s.timingHeap pt).anchor = some pa) :
    stopResumePrev s (some pt) endv =
      (setAnchorF (setTimingF s pt (fun t => { t with start := endv })) pa
        (fun a => { a with active := true }), none) := by
  unfold stopResumePrev
  dsimp only
  rw [show ((setTimingF s pt (fun t => { t with start := endv })).timingHeap pt).anchor
      = some pa by
    rw [setTimingF_timingHeap_self]
    exact hpa]

theorem stopResumeParent_of_none (s : ProfState) (aid : Nat) (endv : Int)
    (h : (s.anchorHeap aid).parent = none) :
    stopResumeParent s aid endv = (s, none) := by
  unfold stopResumeParent
  rw [h]

theorem stopResumeParent_of_some (s : ProfState) (aid : Nat) (endv : Int) (pid pl : Nat)
    (hpid : (s.anchorHeap aid).parent = some pid)
    (hpl : (s.anchorHeap pid).latest = some pl) :
    stopResumeParent s aid endv =
      (setAnchorF (setTimingF s pl (fun t => { t with start := endv })) pid
        (fun a => { a with active := true }), none) := by
  unfold stopResumeParent
  rw [hpid]
  dsimp only
  rw [hpl]

@[simp]
theorem stopFinish_currentTiming (s : ProfState) (aid lt : Nat) (pt : Option Nat)
    (endv : Int) : (stopFinish s aid lt pt endv).currentTiming = pt := rfl

@[simp]
theorem stopFinish_currentAnchor (s : ProfState) (aid lt : Nat) (pt : Option Nat)
    (endv : Int) :
    (stopFinish s aid lt pt endv).currentAnchor = (s.anchorHeap aid).parent := rfl

/-- The non-panicking execution of `Stop` under the conditions that hold
in reachable states, and the resulting call-chain registers: the chain is
popped to `anchor.latest.previous` and `currentAnchor` to the anchor's
(discovery-time) parent. -/
theorem stop_chain_fields (s : ProfState) (n : String) (endv : Int) (aid lt : Nat)
    (henv : s.envTimer ≠ "0")
    (hlk : lookupName s.anchorsByName (truncateName n) = some aid)
    (hlat : (s.anchorHeap aid).latest = some lt)
    (hprev : ∀ pt, (s.timingHeap lt).previous = some pt →
      ∃ pa, (s.timingHeap pt).anchor = some pa)
    (hpar : ∀ pid, (s.anchorHeap aid).parent = some pid →
      ∃ pl, (s.anchorHeap pid).latest = some pl) :
    (stop s n endv).2 = none ∧
    (stop s n endv).1.currentTiming = (s.timingHeap lt).previous ∧
    (stop s n endv).1.currentAnchor = (s.anchorHeap aid).parent := by
  unfold stop
  rw [if_neg henv]
  dsimp only
  rw [hlk]
  dsimp only
  rw [hlat]
  dsimp only
  have hparent_pres1 : ∀ (s1 : ProfState), AnchorFieldsPres s s1 →
      (s1.anchorHeap aid).parent = (s.anchorHeap aid).parent :=
    fun s1 hp => (hp aid).2.2.1
  rcases hpt : (s.timingHeap lt).previous with _ | pt
  · rw [stopResumePrev_of_none]
    unfold pseq
    dsimp only
    rcases hpid : (s.anchorHeap aid).parent with _ | pid
    · rw [stopResumeParent_of_none s aid endv hpid]
      dsimp only
      exact ⟨rfl, rfl, by rw [stopFinish_currentAnchor, hpid]⟩
    · obtain ⟨pl, hpl⟩ := hpar pid hpid
      rw [stopResumeParent_of_some s aid endv pid pl hpid hpl]
      dsimp only
      refine ⟨rfl, rfl, ?_⟩
      rw [stopFinish_currentAnchor]
      rw [setAnchorF_heap_parent _ _ (fun a => { a with active := true }) aid (fun a => rfl)]
      rw [setTimingF_anchorHeap]
      exact hpid
  · obtain ⟨pa, hpa⟩ := hprev pt hpt
    rw [stopResumePrev_of_some s endv pt pa hpa]
    unfold pseq
    dsimp only
    have hfields1 : AnchorFieldsPres s
        (setAnchorF (setTimingF s pt (fun t => { t with start := endv })) pa
          (fun a => { a with active := true })) := by
      intro j
      refine ⟨?_, ?_, ?_, ?_, ?_, ?_⟩ <;> simp
    rcases hpid : ((setAnchorF (setTimingF s pt (fun t => { t with start := endv })) pa
        (fun a => { a with active := true })).anchorHeap aid).parent with _ | pid
    · rw [stopResumeParent_of_none _ aid endv hpid]
      dsimp only
      refine ⟨rfl, rfl, ?_⟩
      rw [stopFinish_currentAnchor]
      exact (hfields1 aid).2.2.1
    · have hpid0 : (s.anchorHeap aid).parent = some pid := by
        rw [← (hfields1 aid).2.2.1]
        exact hpid
      obtain ⟨pl, hpl⟩ := hpar pid hpid0
      have hpl1 : ((setAnchorF (setTimingF s pt (fun t => { t with start := endv })) pa
          (fun a => { a with active := true })).anchorHeap pid).latest = some pl := by
        rw [(hfields1 pid).2.2.2.1]
        exact hpl
      rw [stopResumeParent_of_some _ aid endv pid pl hpid hpl1]
      dsimp only
      refine ⟨rfl, rfl, ?_⟩
      rw [stopFinish_currentAnchor]
      have hfields2 : AnchorFieldsPres s
          (setAnchorF (setTimingF (setAnchorF (setTimingF s pt
            (fun t => { t with start := endv })) pa (fun a => { a with active := true }))
            pl (fun t => { t with start := endv })) pid
            (fun a => { a with active := true })) := by
        refine anchorPres_trans hfields1 ?_
        intro j
        refine ⟨?_, ?_, ?_, ?_, ?_, ?_⟩ <;> simp
      exact (hfields2 aid).2.2.1

/-- `startCont` (the tail of a `Begin` of name `nm`, resolved to anchor
`aid`) pushes one frame: run on a state satisfying the invariant for the
open stack `stk` (with the `latest`-nonempty condition waived for `aid`
itself, so that the lemma also covers a freshly created anchor), with
`nm` not already open, it does not panic and re-establishes the invariant
for `nm :: stk`. -/
theorem inv_startCont (s : ProfState) (stk : List String) (nm : String) (aid : Nat)
    (b now : Int)
    (h1 : s.totalTimingId < s.timingCount)
    (h2 : s.totalAnchorId < s.anchorCount)
    (hmap : ∀ kv ∈ s.anchorsByName, kv.2 < s.anchorCount ∧ kv.2 ≠ s.totalAnchorId ∧
      (s.anchorHeap kv.2).name = kv.1 ∧
      (kv.2 ≠ aid → (s.anchorHeap kv.2).latest ≠ none) ∧
      ((s.anchorHeap kv.2).parent = none ∨
        ∃ kv2 ∈ s.anchorsByName, (s.anchorHeap kv.2).parent = some kv2.2))
    (hnd : (s.anchorsByName.map Prod.snd).Nodup)
    (hchain : ChainOk s s.currentTiming stk)
    (hlk : lookupName s.anchorsByName nm = some aid)
    (hnm : nm ∉ stk) :
    (startCont s aid b now).2 = none ∧ Inv (startCont s aid b now).1 (nm :: stk) := by
  have hmem := mem_of_lookupName hlk
  obtain ⟨haidlt, haidne, hname, hlataid, hparaid⟩ := hmap (nm, aid) hmem
  have hct : s.currentTiming = none ∨
      ∃ ct ca, s.currentTiming = some ct ∧ (s.timingHeap ct).anchor = some ca ∧
        ct < s.timingCount ∧ ct ≠ s.totalTimingId := by
    cases stk with
    | nil =>
      rcases hcur : s.currentTiming with _ | t
      · exact Or.inl rfl
      · rw [hcur] at hchain
        exact hchain.elim
    | cons m rest =>
      rcases hcur : s.currentTiming with _ | t
      · rw [hcur] at hchain
        exact hchain.elim
      · rw [hcur] at hchain
        obtain ⟨ht1, ht2, ⟨ca, hca, -, -⟩, -, -⟩ := hchain
        exact Or.inr ⟨t, ca, rfl, hca, ht1, ht2⟩
  obtain ⟨hc1, hc2, hc3, hc4, hc5, hc6, hc7, hc8, hc9⟩ :=
    startCont_chain_fields s aid b now haidne h1 hct
  obtain ⟨hsk, htc⟩ := startCont_skel s aid b now
  refine ⟨hc1, ?_, ?_, ?_, ?_, ?_, ?_⟩
  · rw [hsk.tT, htc]
    omega
  · rw [hsk.tA, hsk.aCount]
    exact h2
  · intro kv hkv
    rw [hsk.map] at hkv
    obtain ⟨hv1, hv2, hv3, hv4, hv5⟩ := hmap kv hkv
    refine ⟨by rw [hsk.aCount]; exact hv1, by rw [hsk.tA]; exact hv2,
      (startCont_pres_depth_name_parent s aid b now kv.2).2.1.trans hv3, ?_, ?_⟩
    · intro hz
      obtain ⟨hz1, hz2⟩ := hc9 kv.2 hz
      exact hv4 hz2 hz1
    · rw [(startCont_pres_depth_name_parent s aid b now kv.2).2.2, hsk.map]
      exact hv5
  · rw [hsk.map]
    exact hnd
  · rw [hc3, hsk.map]
    exact Or.inr ⟨(nm, aid), hmem, rfl⟩
  · rw [hc2]
    refine ⟨by rw [htc]; omega, by rw [hsk.tT]; omega, ⟨aid, hc5, ?_, hc6⟩, ?_, ?_⟩
    · rw [hsk.map]
      exact hlk
    · intro u hu
      rw [hc4] at hu
      rcases hct with hc | ⟨ct, ca, hcteq, -, hclt, -⟩
      · rw [hc] at hu
        exact Option.noConfusion hu
      · rw [hcteq] at hu
        injection hu with hu2
        rw [← hu2]
        exact hclt
    · rw [hc4]
      apply chainOk_mono s _ (by rw [htc]; omega) hsk.tT stk s.currentTiming hchain hc7
      intro nm2 aid2 hmem2 hlk2
      have hkv2 := mem_of_lookupName hlk2
      have hne2 : nm2 ≠ nm := fun he => hnm (he ▸ hmem2)
      have haidne2 : aid2 ≠ aid := lookupName_inj hnd hlk2 hlk hne2
      refine ⟨by rw [hsk.map]; exact hlk2, hc8 aid2 haidne2 (hmap (nm2, aid2) hkv2).2.1⟩

/-- The lazy calibration touches only `cpuFrequency`, which the invariant
does not mention. -/
theorem inv_calibrate (s : ProfState) (c : Int) (stk : List String) (h : Inv s stk) :
    Inv (calibrate s c) stk := by
  unfold calibrate
  split
  · refine ⟨h.totalTimingLt, h.totalAnchorLt, h.mapok, h.valsNodup, h.curok, ?_⟩
    exact chainOk_mono s { s with cpuFrequency := c } (Nat.le_refl _) rfl stk
      s.currentTiming h.chain (fun t _ _ => ⟨rfl, rfl⟩) (fun nm2 aid2 _ hl => ⟨hl, rfl⟩)
  · exact h

/-- `Stop` of the innermost open region does not panic and pops the
invariant's stack by one. -/
theorem inv_stop (s : ProfState) (m : String) (rest : List String) (n : String)
    (endv : Int) (henv : s.envTimer ≠ "0") (hminv : Inv s (m :: rest))
    (hm : truncateName n = m) :
    (stop s n endv).2 = none ∧ Inv (stop s n endv).1 rest := by
  obtain ⟨h1, h2, hmap, hnd, hcur, hchain⟩ := hminv
  rcases hcur2 : s.currentTiming with _ | t
  · rw [hcur2] at hchain
    exact hchain.elim
  · rw [hcur2] at hchain
    obtain ⟨ht1, ht2, ⟨aid, hca, hlk, hlat⟩, hdec, htail⟩ := hchain
    have hlkn : lookupName s.anchorsByName (truncateName n) = some aid := by
      rw [hm]
      exact hlk
    have hprev : ∀ pt, (s.timingHeap t).previous = some pt →
        ∃ pa, (s.timingHeap pt).anchor = some pa := by
      intro pt hpt
      rw [hpt] at htail
      cases rest with
      | nil => exact htail.elim
      | cons m2 r2 =>
        obtain ⟨-, -, ⟨pa, hpa, -, -⟩, -, -⟩ := htail
        exact ⟨pa, hpa⟩
    have hpar : ∀ pid, (s.anchorHeap aid).parent = some pid →
        ∃ pl, (s.anchorHeap pid).latest = some pl := by
      intro pid hpid
      obtain ⟨-, -, -, -, hp5⟩ := hmap (m, aid) (mem_of_lookupName hlk)
      rcases hp5 with hp | ⟨kv2, hkv2, hp⟩
      · rw [hp] at hpid
        exact Option.noConfusion hpid
      · rw [hp] at hpid
        injection hpid with he
        rcases hz : (s.anchorHeap kv2.2).latest with _ | pl
        · exact absurd hz (hmap kv2 hkv2).2.2.2.1
        · exact ⟨pl, by rw [← he]; exact hz⟩
    obtain ⟨hs1, hs2, hs3⟩ := stop_chain_fields s n endv aid t henv hlkn hlat hprev hpar
    obtain ⟨hsk, hstc⟩ := stop_skel s n endv
    have hAF := stop_anchorFields s n endv
    have hTL := stop_timingLinks s n endv
    refine ⟨hs1, ?_, ?_, ?_, ?_, ?_, ?_⟩
    · rw [hsk.tT, hstc]
      exact h1
    · rw [hsk.tA, hsk.aCount]
      exact h2
    · intro kv hkv
      rw [hsk.map] at hkv
      obtain ⟨hv1, hv2, hv3, hv4, hv5⟩ := hmap kv hkv
      refine ⟨by rw [hsk.aCount]; exact hv1, by rw [hsk.tA]; exact hv2,
        (hAF kv.2).2.1.trans hv3, ?_, ?_⟩
      · rw [(hAF kv.2).2.2.2.1]
        exact hv4
      · rw [(hAF kv.2).2.2.1, hsk.map]
        exact hv5
    · rw [hsk.map]
      exact hnd
    · rw [hs3]
      obtain ⟨-, -, -, -, hp5⟩ := hmap (m, aid) (mem_of_lookupName hlk)
      rcases hp5 with hp | ⟨kv2, hkv2, hp⟩
      · rw [hp]
        exact Or.inl rfl
      · rw [hp]
        exact Or.inr ⟨kv2, by rw [hsk.map]; exact hkv2, rfl⟩
    · rw [hs2]
      exact chainOk_mono s _ (le_of_eq hstc.symm) hsk.tT rest _ htail
        (fun j _ _ => hTL j)
        (fun nm2 aid2 _ hlk2 => ⟨by rw [hsk.map]; exact hlk2, (hAF aid2).2.2.2.1⟩)

/-- A `Begin` of an already-known name that is not currently open pushes
one frame and preserves the invariant. -/
theorem inv_start_existing (s : ProfState) (stk : List String) (n : String)
    (b c now : Int) (aid : Nat) (h : Inv s stk) (henv : s.envTimer ≠ "0")
    (hlk : lookupName s.anchorsByName (truncateName n) = some aid)
    (hnm : truncateName n ∉ stk) :
    (startThroughput s n b c now).2 = none ∧
    Inv (startThroughput s n b c now).1 (truncateName n :: stk) := by
  rw [startThroughput_existing s n b c now aid henv hlk]
  have hI := inv_calibrate s c stk h
  exact inv_startCont (calibrate s c) stk (truncateName n) aid b now
    hI.totalTimingLt hI.totalAnchorLt
    (fun kv hkv =>
      ⟨(hI.mapok kv hkv).1, (hI.mapok kv hkv).2.1, (hI.mapok kv hkv).2.2.1,
        fun _ => (hI.mapok kv hkv).2.2.2.1, (hI.mapok kv hkv).2.2.2.2⟩)
    hI.valsNodup hI.chain
    (by rw [calibrate_anchorsByName]; exact hlk) hnm

/-- A `Begin` of a new name with room in the table creates the anchor and
pushes one frame, preserving the invariant. -/
theorem inv_start_new (s : ProfState) (stk : List String) (n : String) (b c now : Int)
    (h : Inv s stk) (henv : s.envTimer ≠ "0")
    (hlk : lookupName s.anchorsByName (truncateName n) = none)
    (hcap : s.index + 1 < s.anchors.length)
    (hnm : truncateName n ∉ stk) :
    (startThroughput s n b c now).2 = none ∧
    Inv (startThroughput s n b c now).1 (truncateName n :: stk) := by
  rw [startThroughput_new_ok s n b c now henv hlk hcap]
  have hI := inv_calibrate s c stk h
  have hlkc : lookupName (calibrate s c).anchorsByName (truncateName n) = none := by
    rw [calibrate_anchorsByName]
    exact hlk
  have hcapc : (calibrate s c).index + 1 < (calibrate s c).anchors.length := by
    rw [calibrate_index, calibrate_anchors]
    exact hcap
  obtain ⟨-, -, -, -, -, cMap, cCA, cCT, cTA, cTT, cAC, cTH, cTC, cCells, cName, -, -, -, -,
    cLatest, cParent⟩ := createAnchor_ok (calibrate s c) (truncateName n) hcapc
  have hvalslt : ∀ v ∈ (calibrate s c).anchorsByName.map Prod.snd,
      v < (calibrate s c).anchorCount := by
    intro v hv
    obtain ⟨kv, hkv, hkv2⟩ := List.mem_map.mp hv
    exact hkv2 ▸ (hI.mapok kv hkv).1
  have haidc : (calibrate s c).anchorCount = s.anchorCount := calibrate_anchorCount s c
  refine inv_startCont (createAnchor (calibrate s c) (truncateName n)).1 stk
    (truncateName n) s.anchorCount b now ?_ ?_ ?_ ?_ ?_ ?_ hnm
  · rw [cTT, cTC]
    exact hI.totalTimingLt
  · rw [cTA, cAC, haidc]
    have := hI.totalAnchorLt
    omega
  · intro kv hkv
    rw [cMap] at hkv
    rcases List.mem_append.mp hkv with hold | hnew
    · obtain ⟨hv1, hv2, hv3, hv4, hv5⟩ := hI.mapok kv hold
      have hne : kv.2 ≠ (calibrate s c).anchorCount := Nat.ne_of_lt hv1
      refine ⟨by rw [cAC]; omega, by rw [cTA]; exact hv2,
        by rw [cCells kv.2 hne]; exact hv3,
        fun _ => by rw [cCells kv.2 hne]; exact hv4, ?_⟩
      rw [cCells kv.2 hne, cMap]
      rcases hv5 with hp | ⟨kv2, hkv2, hp⟩
      · exact Or.inl hp
      · exact Or.inr ⟨kv2, List.mem_append_left _ hkv2, hp⟩
    · rw [List.mem_singleton] at hnew
      subst hnew
      refine ⟨by rw [cAC]; omega, ?_, cName, fun hne => absurd haidc hne, ?_⟩
      · rw [cTA]
        have := hI.totalAnchorLt
        omega
      · rw [cParent, cMap]
        rcases hI.curok with hc | ⟨kv2, hkv2, hc⟩
        · exact Or.inl hc
        · exact Or.inr ⟨kv2, List.mem_append_left _ hkv2, hc⟩
  · rw [cMap]
    simp only [List.map_append, List.map_cons, List.map_nil]
    rw [List.nodup_append]
    refine ⟨hI.valsNodup, List.nodup_singleton _, ?_⟩
    intro v hv
    simp only [List.mem_singleton]
    intro he
    exact absurd (he ▸ hvalslt v hv) (by rw [haidc]; omega)
  · rw [cCT]
    refine chainOk_mono (calibrate s c) _ (le_of_eq cTC.symm) cTT stk
      (calibrate s c).currentTiming hI.chain ?_ ?_
    · intro t _ _
      rw [cTH]
      exact ⟨rfl, rfl⟩
    · intro nm2 aid2 hmem2 hlk2
      have hkv2 := mem_of_lookupName hlk2
      have hne2 : aid2 ≠ (calibrate s c).anchorCount :=
        Nat.ne_of_lt (hI.mapok (nm2, aid2) hkv2).1
      refine ⟨by rw [cMap]; exact lookupName_append_of_some hlk2, ?_⟩
      rw [cCells aid2 hne2]
  · rw [cMap, ← haidc]
    exact lookupName_append_new _ hlkc

theorem run_cons_of_none (s s1 : ProfState) (op : Op) (rest : List Op)
    (o : List OutLine) (h : stepOp s op = (s1, o, none)) :
    run s (op :: rest) =
      ((run s1 rest).1, o ++ (run s1 rest).2.1, (run s1 rest).2.2) := by
  conv_lhs => rw [run]
  rw [h]

theorem startThroughput_envTimer (s : ProfState) (n : String) (b c now : Int) :
    (startThroughput s n b c now).1.envTimer = s.envTimer := by
  by_cases henv : s.envTimer = "0"
  · rw [startThroughput_disabled s n b c now henv]
  · rcases hlk : lookupName s.anchorsByName (truncateName n) with _ | aid
    · by_cases hcap : s.index + 1 < s.anchors.length
      · rw [startThroughput_new_ok s n b c now henv hlk hcap]
        rw [(startCont_skel _ s.anchorCount b now).1.env]
        rw [(createAnchor_ok (calibrate s c) (truncateName n) (by simpa using hcap)).2.1]
        rw [calibrate_envTimer]
      · rw [startThroughput_new_panic s n b c now henv hlk hcap]
        rw [createAnchor_panic (calibrate s c) (truncateName n) (by simpa using hcap)]
        dsimp only
        rw [calibrate_envTimer]
    · rw [startThroughput_existing s n b c now aid henv hlk]
      rw [(startCont_skel _ aid b now).1.env, calibrate_envTimer]

theorem output_fst (s : ProfState) : (output s).1 = s := by
  unfold output
  dsimp only
  split <;> rfl

theorem inv_initial (env : String) : Inv (initialState env) [] := by
  refine ⟨Nat.zero_lt_one, Nat.zero_lt_one, ?_, ?_, Or.inl rfl, ?_⟩
  · intro kv hkv
    simp [initialState] at hkv
  · simp [initialState]
  · show ChainOk (initialState env) none []
    exact trivial

/-- The run-level invariant: a well-nested, non-recursive, reset-free
trace that does not panic carries `Inv` from any invariant state to the
final state, tracking the specification stack. -/
theorem inv_run (ops : List Op) : ∀ (s : ProfState) (stk : List String),
    s.envTimer ≠ "0" → Inv s stk → stk.Nodup → wfTrace stk ops = true →
    (run s ops).2.2 = none →
    Inv (run s ops).1 (specStackFrom stk ops) ∧ (specStackFrom stk ops).Nodup := by
  induction ops with
  | nil =>
    intro s stk henv h hnd _ _
    exact ⟨h, hnd⟩
  | cons op rest ih =>
    intro s stk henv h hnd hwf hnp
    cases op with
    | start n b c now =>
      rw [wfTrace, Bool.and_eq_true] at hwf
      obtain ⟨hA, hwf2⟩ := hwf
      have hmem : truncateName n ∉ stk := by simpa using hA
      have hstep0 : (startThroughput s n b c now).2 = none ∧
          Inv (startThroughput s n b c now).1 (truncateName n :: stk) := by
        rcases hlk : lookupName s.anchorsByName (truncateName n) with _ | aid
        · by_cases hcap : s.index + 1 < s.anchors.length
          · exact inv_start_new s stk n b c now h henv hlk hcap hmem
          · exfalso
            unfold run at hnp
            rw [show stepOp s (Op.start n b c now) =
              ((startThroughput s n b c now).1, [], (startThroughput s n b c now).2)
              from rfl] at hnp
            rw [startThroughput_new_panic s n b c now henv hlk hcap] at hnp
            dsimp only at hnp
            exact Option.noConfusion hnp
        · exact inv_start_existing s stk n b c now aid h henv hlk hmem
      obtain ⟨hp0, hInv'⟩ := hstep0
      have hrun : run s (Op.start n b c now :: rest) =
          ((run (startThroughput s n b c now).1 rest).1,
            [] ++ (run (startThroughput s n b c now).1 rest).2.1,
            (run (startThroughput s n b c now).1 rest).2.2) :=
        run_cons_of_none s _ _ rest [] (by
          rw [show stepOp s (Op.start n b c now) =
            ((startThroughput s n b c now).1, [], (startThroughput s n b c now).2)
            from rfl, hp0])
      rw [hrun] at hnp ⊢
      dsimp only at hnp ⊢
      show Inv (run (startThroughput s n b c now).1 rest).1
          (specStackFrom (truncateName n :: stk) rest) ∧
        (specStackFrom (truncateName n :: stk) rest).Nodup
      exact ih (startThroughput s n b c now).1 (truncateName n :: stk)
        (by rw [startThroughput_envTimer]; exact henv) hInv'
        (List.nodup_cons.mpr ⟨hmem, hnd⟩) hwf2 hnp
    | stop n now =>
      cases stk with
      | nil =>
        rw [wfTrace] at hwf
        exact Bool.noConfusion hwf
      | cons m rest2 =>
        rw [wfTrace, Bool.and_eq_true] at hwf
        obtain ⟨hA, hwf2⟩ := hwf
        have hm : truncateName n = m := by simpa using hA
        obtain ⟨hp0, hInv'⟩ := inv_stop s m rest2 n now henv h hm
        have hrun : run s (Op.stop n now :: rest) =
            ((run (stop s n now).1 rest).1,
              [] ++ (run (stop s n now).1 rest).2.1,
              (run (stop s n now).1 rest).2.2) :=
          run_cons_of_none s _ _ rest [] (by
            rw [show stepOp s (Op.stop n now) =
              ((stop s n now).1, [], (stop s n now).2) from rfl, hp0])
        rw [hrun] at hnp ⊢
        dsimp only at hnp ⊢
        show Inv (run (stop s n now).1 rest).1 (specStackFrom rest2 rest) ∧
          (specStackFrom rest2 rest).Nodup
        exact ih (stop s n now).1 rest2
          (by rw [(stop_skel s n now).1.env]; exact henv) hInv'
          (List.Nodup.of_cons hnd) hwf2 hnp
    | output =>
      rw [wfTrace] at hwf
      have hrun : run s (Op.output :: rest) =
          ((run s rest).1, (output s).2 ++ (run s rest).2.1, (run s rest).2.2) :=
        run_cons_of_none s s Op.output rest (output s).2 (by
          rw [show stepOp s Op.output = ((output s).1, (output s).2, none) from rfl,
            output_fst])
      rw [hrun] at hnp ⊢
      dsimp only at hnp ⊢
      show Inv (run s rest).1 (specStackFrom stk rest) ∧ (specStackFrom stk rest).Nodup
      exact ih s stk henv h hnd hwf hnp
    | reset =>
      rw [wfTrace] at hwf
      exact Bool.noConfusion hwf

theorem run_cons_of_some (s s1 : ProfState) (op : Op) (rest : List Op)
    (o : List OutLine) (p : GoPanic) (h : stepOp s op = (s1, o, some p)) :
    run s (op :: rest) = (s1, o, some p) := by
  conv_lhs => rw [run]
  rw [h]

theorem run_no_panic_prefix (l1 : List Op) : ∀ (l2 : List Op) (s : ProfState),
    (run s (l1 ++ l2)).2.2 = none → (run s l1).2.2 = none := by
  induction l1 with
  | nil => intro l2 s _; rfl
  | cons op rest ih =>
    intro l2 s h
    rcases hE : stepOp s op with ⟨s1, o, p⟩
    cases p with
    | none =>
      rw [List.cons_append, run_cons_of_none s s1 op (rest ++ l2) o hE] at h
      rw [run_cons_of_none s s1 op rest o hE]
      exact ih l2 s1 h
    | some pp =>
      rw [List.cons_append, run_cons_of_some s s1 op (rest ++ l2) o pp hE] at h
      exact Option.noConfusion h

theorem wfTrace_append (l1 l2 : List Op) : ∀ stk,
    wfTrace stk (l1 ++ l2) =
      (wfTrace stk l1 && wfTrace (specStackFrom stk l1) l2) := by
  induction l1 with
  | nil => intro stk; simp [wfTrace, specStackFrom]
  | cons op rest ih =>
    intro stk
    cases op with
    | start n b c now =>
      rw [List.cons_append, wfTrace, wfTrace, ih, Bool.and_assoc]
      rfl
    | stop n now =>
      cases stk with
      | nil => simp [wfTrace]
      | cons m r2 =>
        rw [List.cons_append, wfTrace, wfTrace]
        rw [ih, Bool.and_assoc]
        rfl
    | output =>
      rw [List.cons_append, wfTrace, wfTrace, ih]
      rfl
    | reset => simp [wfTrace]

theorem beginCount_cons (op : Op) (rest : List Op) :
    beginCount (op :: rest) =
      (match op with | Op.start _ _ _ _ => 1 | _ => 0) + beginCount rest := by
  cases op <;> (simp [beginCount, List.filter]; try omega)

theorem endCount_cons (op : Op) (rest : List Op) :
    endCount (op :: rest) =
      (match op with | Op.stop _ _ => 1 | _ => 0) + endCount rest := by
  cases op <;> (simp [endCount, List.filter]; try omega)

theorem specStack_length (ops : List Op) : ∀ stk, wfTrace stk ops = true →
    (specStackFrom stk ops).length + endCount ops =
      stk.length + beginCount ops := by
  induction ops with
  | nil => intro stk _; simp [specStackFrom, beginCount, endCount]
  | cons op rest ih =>
    intro stk hwf
    cases op with
    | start n b c now =>
      rw [wfTrace, Bool.and_eq_true] at hwf
      have h2 := ih (truncateName n :: stk) hwf.2
      rw [beginCount_cons, endCount_cons]
      show (specStackFrom (truncateName n :: stk) rest).length + _ = _
      dsimp only
      dsimp only [List.length_cons] at h2
      omega
    | stop n now =>
      cases stk with
      | nil => rw [wfTrace] at hwf; exact Bool.noConfusion hwf
      | cons m r2 =>
        rw [wfTrace, Bool.and_eq_true] at hwf
        have h2 := ih r2 hwf.2
        rw [beginCount_cons, endCount_cons]
        show (specStackFrom r2 rest).length + _ = _
        dsimp only
        dsimp only [List.length_cons]
        omega
    | output =>
      rw [wfTrace] at hwf
      have h2 := ih stk hwf
      rw [beginCount_cons, endCount_cons]
      show (specStackFrom stk rest).length + _ = _
      dsimp only
      omega
    | reset => rw [wfTrace] at hwf; exact Bool.noConfusion hwf

theorem chainIds_map_names (s : ProfState)
    (hname : ∀ nm aid, lookupName s.anchorsByName nm = some aid →
      (s.anchorHeap aid).name = nm) :
    ∀ (stk : List String) (o : Option Nat) (fuel : Nat),
      ChainOk s o stk → (∀ t, o = some t → t < fuel) →
      (chainIds s.timingHeap fuel o).map
        (fun t =>
          match (s.timingHeap t).anchor with
          | some aid => (s.anchorHeap aid).name
          | none => "") = stk := by
  intro stk
  induction stk with
  | nil =>
    intro o fuel hc _
    cases o with
    | none => cases fuel <;> rfl
    | some t => exact hc.elim
  | cons nm rest ih =>
    intro o fuel hc hlt
    cases o with
    | none => exact hc.elim
    | some t =>
      obtain ⟨hlt2, hne, ⟨aid, hanc, hlk, hlatest⟩, hdec, htail⟩ := hc
      have hfuel := hlt t rfl
      cases fuel with
      | zero => omega
      | succ f =>
        rw [chainIds, List.map_cons]
        congr 1
        · rw [hanc]
          exact hname nm aid hlk
        · exact ih (s.timingHeap t).previous f htail
            (fun u hu => by have := hdec u hu; omega)

theorem chainNames_of_inv (s : ProfState) (stk : List String) (h : Inv s stk) :
    chainNames s = stk := by
  have hname : ∀ nm aid, lookupName s.anchorsByName nm = some aid →
      (s.anchorHeap aid).name = nm := by
    intro nm aid hlk
    obtain ⟨-, -, h3, -, -⟩ := h.mapok (nm, aid) (mem_of_lookupName hlk)
    exact h3
  have hbound : ∀ t, s.currentTiming = some t → t < s.timingCount := by
    intro t ht
    have hc := h.chain
    rw [ht] at hc
    cases stk with
    | nil => exact hc.elim
    | cons nm rest => exact hc.1
  exact chainIds_map_names s hname stk s.currentTiming s.timingCount h.chain hbound

/-- C2 (amended): for a well-nested trace with no recursive re-entry, no
`Reset`, profiling enabled and no panic, after every prefix the chain
`currentTiming -> previous -> ...` carries exactly the names of the
still-open regions, innermost first, and its length equals the number of
`Begin` calls not yet matched by an `End`. (The unamended claim fails on
recursive traces: see the counterexample.) -/
theorem c2_nonrecursive_chain_mirrors_stack (env : String) (ops : List Op)
    (k : Nat) (henv : env ≠ "0") (hwf : wfTrace [] ops = true)
    (hnp : (run (initialState env) ops).2.2 = none) :
    chainNames (run (initialState env) (ops.take k)).1 =
      specStackFrom [] (ops.take k) ∧
    (chainNames (run (initialState env) (ops.take k)).1).length +
        endCount (ops.take k) = beginCount (ops.take k) := by
  have hsplit := List.take_append_drop k ops
  have hwf1 : wfTrace [] (ops.take k) = true := by
    have h2 := wfTrace_append (ops.take k) (ops.drop k) []
    rw [hsplit, hwf] at h2
    have h3 : (wfTrace [] (ops.take k) &&
        wfTrace (specStackFrom [] (ops.take k)) (ops.drop k)) = true := h2.symm
    rw [Bool.and_eq_true] at h3
    exact h3.1
  have hnp1 : (run (initialState env) (ops.take k)).2.2 = none := by
    refine run_no_panic_prefix (ops.take k) (ops.drop k) (initialState env) ?_
    rw [hsplit]
    exact hnp
  obtain ⟨hinv, -⟩ := inv_run (ops.take k) (initialState env) [] henv
    (inv_initial env) List.nodup_nil hwf1 hnp1
  refine ⟨chainNames_of_inv _ _ hinv, ?_⟩
  rw [chainNames_of_inv _ _ hinv]
  have hl := specStack_length (ops.take k) [] hwf1
  simpa using hl

/-- Closed witness for C2 at the well-nested trace
Begin(a)@100; Begin(b)@110; End(b)@120; End(a)@130, after its second
prefix: the chain names are ["b", "a"] and two Begins are unmatched. -/
theorem c2_nonrecursive_chain_witness :
    ("1" : String) ≠ "0" ∧
    wfTrace [] [Op.start "a" 0 3000 100, Op.start "b" 0 3000 110,
      Op.stop "b" 120, Op.stop "a" 130] = true ∧
    (run (initialState "1") [Op.start "a" 0 3000 100, Op.start "b" 0 3000 110,
      Op.stop "b" 120, Op.stop "a" 130]).2.2 = none ∧
    (chainNames (run (initialState "1") ([Op.start "a" 0 3000 100,
        Op.start "b" 0 3000 110, Op.stop "b" 120,
        Op.stop "a" 130].take 2)).1 =
      specStackFrom [] ([Op.start "a" 0 3000 100, Op.start "b" 0 3000 110,
        Op.stop "b" 120, Op.stop "a" 130].take 2) ∧
    (chainNames (run (initialState "1") ([Op.start "a" 0 3000 100,
        Op.start "b" 0 3000 110, Op.stop "b" 120,
        Op.stop "a" 130].take 2)).1).length +
        endCount ([Op.start "a" 0 3000 100, Op.start "b" 0 3000 110,
          Op.stop "b" 120, Op.stop "a" 130].take 2) =
      beginCount ([Op.start "a" 0 3000 100, Op.start "b" 0 3000 110,
        Op.stop "b" 120, Op.stop "a" 130].take 2)) :=
  ⟨by decide, by rfl, by rfl,
    c2_nonrecursive_chain_mirrors_stack "1"
      [Op.start "a" 0 3000 100, Op.start "b" 0 3000 110,
        Op.stop "b" 120, Op.stop "a" 130] 2
      (by decide) (by rfl) (by rfl)⟩

end GoTimer
